import Mathlib

/-!
Verification of the presentation-upload pipelines of the pptupload repository.

The repository exposes three upload pipelines:
  * a direct upload handler (route.ts, `POST (direct upload)`) taking client-rendered
    preview/thumbnail images,
  * a streamed-conversion handler (`POST (streamed upload)` with `createStreamResponse`)
    emitting progress events over a server-sent event stream,
  * an AI-assisted handler (`POST (process-ppt)`) with a page-count gate and a remote
    classifier.

Every definition below is a shallow embedding of the corresponding TypeScript source.
External collaborators (the object store `r2`/`s3Client`, the Supabase record store, the
Python converter subprocess, the Doubao classifier, the filesystem) are modelled by
oracles recorded in the input structures: an oracle supplies the outcome the external
call would return, and the embedding reproduces exactly how the handler reacts to it.
Side effects (workspace creation/removal, blob puts, database writes) are recorded as an
ordered effect trace, from which the final filesystem / blob-store / database states are
computed by interpreters.
-/

/-! ## JavaScript string primitives

Faithful character-level models of the String.prototype operations the handlers use:
`trim`, `split('\x7bsep\x7d')`, `toLowerCase` (ASCII), `path.basename`, `path.extname`.
In Lean 4.14 a `String` is a structure holding a `List Char`, so these are plain list
functions.
-/

/-- Whitespace test matching the characters relevant to JavaScript's `trim` for
converter output (space, tab, newline, carriage return, vertical tab, form feed). -/
def jsWs (c : Char) : Bool :=
  c = ' ' || c = '\t' || c = '\n' || c = '\r' || c = '\x0b' || c = '\x0c'

/-- Model of JavaScript `String.prototype.trim` on the character list: drop whitespace
from the front, then from the back (implemented via reverse). -/
def trimChars (cs : List Char) : List Char :=
  ((cs.dropWhile jsWs).reverse.dropWhile jsWs).reverse

/-- Model of JavaScript `String.prototype.trim`. -/
def jsTrim (s : String) : String :=
  ⟨trimChars s.data⟩

/-- Model of JavaScript `String.prototype.split(sep)` for a one-character separator:
`splitChOn sep cs` returns the chunks between occurrences of `sep`.  As in JavaScript,
the result is always non-empty and an empty input yields `[[]]`. -/
def splitChOn (sep : Char) : List Char → List (List Char)
  | [] => [[]]
  | c :: rest =>
    let r := splitChOn sep rest
    if c = sep then [] :: r
    else
      match r with
      | [] => [[c]]
      | h :: t => (c :: h) :: t

/-- Model of `split` returning strings. -/
def splitField (sep : Char) (s : String) : List String :=
  (splitChOn sep s.data).map fun l => ⟨l⟩

/-- ASCII lower-casing, modelling `String.prototype.toLowerCase` on the ASCII
file extensions the validation code inspects. -/
def asciiLower (s : String) : String :=
  ⟨s.data.map fun c => if 'A' ≤ c ∧ c ≤ 'Z' then Char.ofNat (c.toNat + 32) else c⟩

/-- Model of `file.name.split('.').pop()?.toLowerCase()` from the direct handler:
the substring after the last dot (the whole name when there is no dot), lower-cased. -/
def extOf (name : String) : String :=
  asciiLower ((splitField '.' name).getLastD "")

/-- Model of `path.extname(file.name).slice(1)`: the extension without its dot, or `""`
for a dot-free name.  (Node's special case for names that start with their only dot is
not exercised by the pipelines and is not modelled.) -/
def extSlice (name : String) : String :=
  let parts := splitField '.' name
  if parts.length ≤ 1 then "" else parts.getLastD ""

/-- Model of `path.basename`: the component after the last slash. -/
def basenameOf (p : String) : String :=
  (splitField '/' p).getLastD ""

/-- Boolean string-prefix test (used to state key-rooting facts). -/
def strStarts (p s : String) : Bool :=
  p.data.isPrefixOf s.data

/-- JavaScript truthiness of an optional form-data string: absent or empty is falsy,
modelling checks such as `if (!title)`. -/
def falsyS (o : Option String) : Bool :=
  o.getD "" = ""

/-! ## Converter subprocess adapters

`runPythonConverter` is the streamed pipeline's adapter (part_002, lines 85-126):
on exit code 0 it parses the last line of `stdoutData.trim().split('\n')` as JSON;
`runPythonScript` is the process-ppt wrapper (part_002 second route, `runPythonScript`)
which resolves the raw accumulated stdout and leaves parsing to its caller.

`JSON.parse` is an external runtime facility; it is modelled by an oracle
`jparse : String → Option PreviewData` carried in the pipeline input (`none` models a
`SyntaxError` throw).
-/

/-- Observable outcome of a spawned converter process: either the `close` event with an
exit code and the fully accumulated stdout/stderr, or a spawn `error` event. -/
inductive ConvOutcome where
  | closed (code : Int) (stdout : String) (stderr : String)
  | spawnErr (msg : String)
deriving DecidableEq, Repr

/-- Result of `JSON.parse` on converter output, as the pipelines consume it: the three
fields the handlers read, each possibly absent (`page_count || 0`,
`!previewData.previews`, `previewData.thumbnails[i]`). -/
structure PreviewData where
  page_count : Option Nat
  previews : Option (List String)
  thumbnails : Option (List String)
deriving DecidableEq, Repr

deriving instance DecidableEq for Except

/-- Model of `lines = stdoutData.trim().split('\n'); lines[lines.length - 1]` from
`runPythonConverter`. -/
def lastStdoutLine (s : String) : String :=
  ⟨(splitChOn '\n' (trimChars s.data)).getLastD []⟩

/-- Diagnostic message built on JSON parse failure in `runPythonConverter`. -/
def parseFailMsg (out err : String) : String :=
  "Failed to parse Python script output. Raw stdout: " ++ out ++ ". Stderr: " ++ err

/-- Message built on a non-zero converter exit code in `runPythonConverter`. -/
def exitFailMsg (code : Int) (err : String) : String :=
  "Python script exited with code " ++ toString code ++ ". Error: " ++ err

/-- Message built when the converter process cannot be spawned. -/
def spawnFailMsg (m : String) : String :=
  "Failed to start Python script: " ++ m

/-- The streamed pipeline's converter adapter (part_002, `runPythonConverter`):
exit code 0 parses the last line of the trimmed stdout via the `JSON.parse` oracle
`jp`; a parse failure rejects with the raw stdout/stderr diagnostic; a non-zero exit
code rejects with the exit code and captured stderr; a spawn error rejects. -/
def runPythonConverter (jp : String → Option PreviewData) :
    ConvOutcome → Except String PreviewData
  | .closed code out err =>
    if code = 0 then
      match jp (lastStdoutLine out) with
      | some r => .ok r
      | none => .error (parseFailMsg out err)
    else .error (exitFailMsg code err)
  | .spawnErr m => .error (spawnFailMsg m)

/-- Message built on a non-zero exit code in the process-ppt `runPythonScript`. -/
def scriptFailMsg (script : String) (code : Int) (err : String) : String :=
  "Python script " ++ script ++ " failed with code " ++ toString code ++ ":\n" ++ err

/-- The process-ppt pipeline's subprocess wrapper (part_002 second route,
`runPythonScript`): exit code 0 resolves the raw accumulated stdout (no parsing);
non-zero exit rejects with the script name, code and stderr; spawn error rejects. -/
def runPythonScript (script : String) : ConvOutcome → Except String String
  | .closed code out err =>
    if code = 0 then .ok out
    else .error (scriptFailMsg script code err)
  | .spawnErr m => .error m

example : lastStdoutLine "INFO converting\nRESULT" = "RESULT" := by decide
example : lastStdoutLine "RESULT\n\n" = "RESULT" := by decide
example : jsTrim "  a b\n" = "a b" := by decide
example : extOf "Deck.KEY" = "key" := by decide
example : extOf "deck.pptx" = "pptx" := by decide
example : extSlice "a.b.pptx" = "pptx" := by decide
example : basenameOf "/tmp/x/page-1.jpg" = "page-1.jpg" := by decide

/-! ## Shared persistence model

Effects are recorded in the order the handlers perform them; interpreters below compute
the final workspace set, blob store and database contents from a trace.
-/

/-- Inserted `ppt_files` row, restricted to the columns the pipelines write and the
claims mention.  `id` is the row's identity (DB-generated for the direct and AI
pipelines, the client-side UUID for the streamed pipeline); absent columns are `none`. -/
structure FileRow where
  id : String
  title : String
  slug : Option String
  page_count : Nat
  r2_file_key : Option String
  r2_thumbnail_key : Option String
  file_name : String
  file_size : Nat
  file_type : String
deriving DecidableEq, Repr

/-- Inserted `ppt_previews` row. -/
structure PreviewRow where
  ppt_id : String
  page_number : Nat
  preview_url : String
  thumbnail_url : String
deriving DecidableEq, Repr

/-- One observable side effect of a pipeline, in execution order.  `putBlob` records an
object-store put (`hasBody = false` for a `PutObjectCommand` issued without a `Body`);
database effects record the rows a *successful* call wrote; workspace effects record
`fs.mkdtemp` / `fs.rm(recursive, force)` on the request's scratch directory. -/
inductive Effect where
  | mkWorkspace (dir : String)
  | putBlob (key : String) (hasBody : Bool)
  | insertFile (row : FileRow)
  | insertPreviews (rows : List PreviewRow)
  | updateFile (id : String) (fileKey : Option String) (thumbKey : Option String)
  | rmWorkspace (dir : String)
deriving DecidableEq, Repr

/-- One step of the workspace interpreter. -/
def dirsStep (acc : List String) (e : Effect) : List String :=
  match e with
  | .mkWorkspace d => acc ++ [d]
  | .rmWorkspace d => acc.filter (· ≠ d)
  | _ => acc

/-- Workspace directories existing after a trace. -/
def dirsAfter (effs : List Effect) : List String :=
  effs.foldl dirsStep []

/-- Blob-store content at a key after a trace: `some b` when the key exists, `b` telling
whether the last put carried a body. -/
def blobAt (effs : List Effect) (k : String) : Option Bool :=
  effs.foldl
    (fun acc e =>
      match e with
      | .putBlob k' b => if k' = k then some b else acc
      | _ => acc) none

/-- The `ppt_files` rows written by a trace. -/
def fileRowsAfter (effs : List Effect) : List FileRow :=
  effs.foldl
    (fun acc e =>
      match e with
      | .insertFile r => acc ++ [r]
      | _ => acc) []

/-- The `ppt_previews` rows written by a trace. -/
def previewRowsAfter (effs : List Effect) : List PreviewRow :=
  effs.foldl
    (fun acc e =>
      match e with
      | .insertPreviews rs => acc ++ rs
      | _ => acc) []

/-- Model of `fs.rm(path, \x7b recursive: true, force: true/false \x7d)` over the set of
existing directories: removing an existing directory removes it; with `force` a missing
path is tolerated as success, without it the call raises `ENOENT`.  Every pipeline
cleanup call passes `force: true`. -/
def fsRm (dirs : List String) (d : String) (force : Bool) : Except String (List String) :=
  if d ∈ dirs then .ok (dirs.filter (· ≠ d))
  else if force then .ok dirs
  else .error "ENOENT"

/-- An uploaded `File` as the handlers see it: declared name and byte size.  Body bytes
and MIME type are carried abstractly by the blob puts and are not needed by any claim. -/
structure FileInfo where
  name : String
  size : Nat
deriving DecidableEq, Repr

/-- The 100 MiB request size limit (`100 * 1024 * 1024`). -/
def maxSize : Nat := 100 * 1024 * 1024

/-- Storage-key namespace root for one file: `ppt-files/<root>/`. -/
def keyRoot (root : String) : String :=
  "ppt-files/" ++ root ++ "/"

/-- Original-file storage key `ppt-files/<root>/original/<name>`. -/
def origKeyOf (root name : String) : String :=
  keyRoot root ++ "original/" ++ name

/-- Page preview key `ppt-files/<root>/previews/page-<n>.<ext>`. -/
def pagePrevKey (root : String) (n : Nat) (ext : String) : String :=
  keyRoot root ++ "previews/page-" ++ toString n ++ "." ++ ext

/-- Page thumbnail key `ppt-files/<root>/previews/page-<n>-thumb.<ext>`. -/
def pageThumbKey (root : String) (n : Nat) (ext : String) : String :=
  keyRoot root ++ "previews/page-" ++ toString n ++ "-thumb." ++ ext

/-- Representative thumbnail key `ppt-files/<root>/previews/thumbnail.webp` written by
the process-ppt pipeline's step 8. -/
def repThumbKey (root : String) : String :=
  keyRoot root ++ "previews/thumbnail.webp"

/-- Streamed-pipeline preview/thumbnail key: `ppt-files/<root>/previews/<basename>`,
named after the converter's output file. -/
def streamAssetKey (root base : String) : String :=
  keyRoot root ++ "previews/" ++ base

/-! ## Streamed-conversion pipeline (part_002 first route)

`createStreamResponse` wraps a callback with a `ReadableStream` controller:
`sendEvent` enqueues a JSON event, `close` closes the controller.  Enqueuing on a
closed controller throws (`TypeError: Invalid state`), and the callback's `finally`
block closes the controller unconditionally before any thrown error reaches
`createStreamResponse`'s catch clause.  The model therefore distinguishes events that
were actually delivered (enqueued while open) from an emission attempted after close.
-/

/-- One server-sent event `\x7b status, message, ...extra \x7d`. -/
structure Event where
  status : String
  message : String
  slug : Option String
deriving DecidableEq, Repr

/-- An `info` progress event. -/
def evInfo (m : String) : Event := ⟨"info", m, none⟩

/-- A `processing` progress event. -/
def evProcessing (m : String) : Event := ⟨"processing", m, none⟩

/-- The terminal `done` event, carrying the slug. -/
def evDone (m s : String) : Event := ⟨"done", m, some s⟩

/-- The terminal `error` event. -/
def evError (m : String) : Event := ⟨"error", m, none⟩

/-- Outcome of the streamed upload callback body (the code inside the `try` of the
callback passed to `createStreamResponse`): either normal completion or a thrown error,
in both cases with the events sent and the effects performed so far. -/
inductive BodyResult where
  | ok (events : List Event) (effects : List Effect)
  | err (events : List Event) (effects : List Effect) (msg : String)

/-- Events of a body outcome. -/
def BodyResult.events : BodyResult → List Event
  | .ok evs _ => evs
  | .err evs _ _ => evs

/-- Effects of a body outcome. -/
def BodyResult.effects : BodyResult → List Effect
  | .ok _ effs => effs
  | .err _ effs _ => effs

/-- Input of one streamed upload request, with oracles for the external collaborators:
`convert`/`jparse` for the Python converter and `JSON.parse`, `insertFileErr` /
`insertPreviewsErr` for the two Supabase inserts (`none` means success), `tempDirName`
for `fs.mkdtemp`, `uuid` for `uuidv4()`, `timestamp` for `Date.now()`.  Blob puts and
filesystem writes are modelled as succeeding. -/
structure StreamInput where
  file : Option FileInfo
  title : Option String
  description : Option String
  category : Option String
  subcategory : Option String
  tags : Option String
  tempDirName : String
  uuid : String
  timestamp : Nat
  convert : ConvOutcome
  jparse : String → Option PreviewData
  insertFileErr : Option String
  insertPreviewsErr : Option String

/-- Model of the `slugify(title, \x7b lower: true, strict: true \x7d)` library call:
lower-casing is modelled, hyphenation of the slug body is abstracted (no claim depends
on the slug's internal shape). -/
def slugifyModel (s : String) : String :=
  asciiLower s

/-- Per-page fan-out of step 6 of the streamed pipeline: for each preview/thumbnail
path pair (index `i`), upload both blobs under keys named after the converter output
basenames, emit an `info` event, and accumulate the `PreviewRecord`.  The source runs
these concurrently and joins with `Promise.all`; the model serializes them in fan-out
(index) order, which is the order the record array preserves. -/
def streamPages (root : String) : List (String × String) → Nat →
    List Event × List Effect × List PreviewRow
  | [], _ => ([], [], [])
  | (p, t) :: rest, i =>
    let pk := streamAssetKey root (basenameOf p)
    let tk := streamAssetKey root (basenameOf t)
    let row : PreviewRow := ⟨root, i + 1, pk, tk⟩
    let (evs, effs, rows) := streamPages root rest (i + 1)
    (evInfo ("已上传: " ++ basenameOf p ++ " & " ++ basenameOf t) :: evs,
     Effect.putBlob pk true :: Effect.putBlob tk true :: effs,
     row :: rows)

/-- Slug built by the streamed pipeline: slugified title plus `Date.now()` suffix. -/
def streamSlug (inp : StreamInput) : String :=
  slugifyModel (inp.title.getD "") ++ "-" ++ toString inp.timestamp

/-- The `ppt_files` row the streamed pipeline inserts (step 7): the client-side UUID as
id, page count from the accumulated preview records, and both storage keys already
attached (`r2_thumbnail_key` is the first record's thumbnail key, or null with zero
pages). -/
def streamRow (inp : StreamInput) (f : FileInfo) (rows : List PreviewRow) : FileRow :=
  { id := inp.uuid
    title := inp.title.getD ""
    slug := some (streamSlug inp)
    page_count := rows.length
    r2_file_key := some (origKeyOf inp.uuid f.name)
    r2_thumbnail_key := (rows.head?).map PreviewRow.thumbnail_url
    file_name := f.name
    file_size := f.size
    file_type := extSlice f.name }

/-- Steps 4-8 of the streamed pipeline body, after a valid conversion produced parallel
preview/thumbnail path lists `ps`/`ts` of equal length: upload the original, fan out
over the pages, insert the `ppt_files` row (all storage keys attached at insert time),
then batch-insert the `ppt_previews` rows, then send the terminal `done` event.
`evs0`/`effs0` accumulate the events/effects of the earlier steps. -/
def sConverted (inp : StreamInput) (f : FileInfo) (ps ts : List String)
    (evs0 : List Event) (effs0 : List Effect) : BodyResult :=
  let pid := inp.uuid
  let slug := streamSlug inp
  let okey := origKeyOf pid f.name
  let (pevs, peffs, rows) := streamPages pid (ps.zip ts) 0
  let evs1 := evs0 ++
    [evInfo ("文件转换成功！共生成 " ++ toString ps.length ++ " 页预览。"),
     evProcessing "正在上传原始PPT文件到云存储...",
     evInfo "原始PPT文件上传完成。",
     evProcessing "正在上传预览图和缩略图..."] ++ pevs ++
    [evInfo "所有图片上传完成。",
     evProcessing "正在将文件信息写入数据库..."]
  let effs1 := effs0 ++ [Effect.putBlob okey true] ++ peffs
  let row := streamRow inp f rows
  match inp.insertFileErr with
  | some e => .err evs1 effs1 ("数据库(ppt_files)入库失败: " ++ e)
  | none =>
    match inp.insertPreviewsErr with
    | some e =>
      .err evs1 (effs1 ++ [Effect.insertFile row]) ("数据库(ppt_previews)入库失败: " ++ e)
    | none =>
      .ok (evs1 ++ [evInfo "数据库写入成功！", evDone "所有任务已成功完成！" slug])
        (effs1 ++ [Effect.insertFile row, Effect.insertPreviews rows])

/-- Steps 1-3 of the streamed pipeline body after validation passed: create the
workspace, save the file, run the converter, and validate its result
(`!conversionResult || !previews || !thumbnails || previews.length !== thumbnails.length`
throws; a `JSON.parse` result with no `previews`/`thumbnails` fields also covers the
falsy-result case). -/
def sStaged (inp : StreamInput) (f : FileInfo) : BodyResult :=
  let evs0 :=
    [evInfo "数据校验完成，开始处理文件...",
     evInfo ("创建临时目录: " ++ basenameOf inp.tempDirName),
     evInfo "PPT文件已保存到服务器。",
     evProcessing "正在调用Python脚本转换文件... (此步骤可能需要较长时间)"]
  let effs0 := [Effect.mkWorkspace inp.tempDirName]
  match runPythonConverter inp.jparse inp.convert with
  | .error e => .err evs0 effs0 e
  | .ok pd =>
    match pd.previews, pd.thumbnails with
    | some ps, some ts =>
      if ps.length = ts.length then sConverted inp f ps ts evs0 effs0
      else .err evs0 effs0 "Python脚本未能成功转换或返回有效路径。"
    | _, _ => .err evs0 effs0 "Python脚本未能成功转换或返回有效路径。"

/-- The streamed upload callback body (the `try` block): validation throws before any
event or effect; afterwards the staged pipeline runs. -/
def streamedBody (inp : StreamInput) : BodyResult :=
  match inp.file with
  | none => .err [] [] "文件未上传。"
  | some f =>
    if f.size > maxSize then .err [] [] "文件大小超过限制。"
    else if falsyS inp.title || falsyS inp.category then .err [] [] "标题和分类是必填项。"
    else sStaged inp f

/-- Observable result of one streamed upload request: the events actually delivered to
the client (enqueued while the controller was open), whether the transport was closed,
the event whose enqueue was attempted after close and threw (the outer catch's error
event), and the effect trace. -/
structure StreamOutput where
  delivered : List Event
  closed : Bool
  failedEmit : Option Event
  effects : List Effect
deriving DecidableEq, Repr

/-- Whether a trace created the workspace (guards the `if (tempDir)` cleanup). -/
def hasWorkspace (effs : List Effect) : Bool :=
  effs.any fun e =>
    match e with
    | .mkWorkspace _ => true
    | _ => false

/-- The streamed upload handler (part_002, `POST (streamed upload)` +
`createStreamResponse`).  The callback's `finally` removes the workspace (when created)
and closes the controller on every path; on a thrown error the outer catch of
`createStreamResponse` then attempts `sendEvent(\x7b status: 'error', ... \x7d)` on the
already-closed controller, so that event is never delivered and is recorded in
`failedEmit`. -/
def streamedPOST (inp : StreamInput) : StreamOutput :=
  match streamedBody inp with
  | .ok evs effs =>
    { delivered := evs, closed := true, failedEmit := none
      effects := effs ++ if hasWorkspace effs then [Effect.rmWorkspace inp.tempDirName] else [] }
  | .err evs effs msg =>
    { delivered := evs, closed := true, failedEmit := some (evError msg)
      effects := effs ++ if hasWorkspace effs then [Effect.rmWorkspace inp.tempDirName] else [] }

/-! ## Direct upload pipeline (route.ts) -/

/-- Outcome of `JSON.parse` on the `previews`/`thumbnails` form fields of the direct
pipeline: a string array, some non-array JSON value, or a parse failure (which throws
and is caught by the handler's outer catch). -/
inductive FormJson where
  | arr (xs : List String)
  | nonArray
  | malformed
deriving DecidableEq, Repr

/-- Response body of the direct handler, restricted to what the claims observe:
a 4xx validation message, a caught-exception failure (`success: false`), or the
success payload with the database id. -/
inductive DirectBody where
  | invalid (message : String)
  | failure (message : String)
  | success (id : String)
deriving DecidableEq, Repr

/-- Observable result of one direct upload request. -/
structure DirectOutput where
  status : Nat
  body : DirectBody
  effects : List Effect
deriving DecidableEq, Repr

/-- Input of one direct upload request.  `insertFile` is the oracle for the
`ppt_files` insert (`.ok id` returns the DB-generated row id, `.error` the Supabase
error message); `insertPreviewErr i` is the oracle for the per-page `ppt_previews`
insert of page index `i`. -/
structure DirectInput where
  file : Option FileInfo
  title : Option String
  category : Option String
  subcategory : Option String
  previewsField : Option FormJson
  thumbnailsField : Option FormJson
  timestamp : Nat
  insertFile : Except String String
  insertPreviewErr : Nat → Option String

/-- Per-page loop of the direct handler: upload the preview blob, upload the thumbnail
blob, insert one `ppt_previews` row *without checking the insert's error result*.
Accessing `thumbnails[i]` past the end of the thumbnails array throws (`split` of
`undefined`), aborting the loop after that page's preview upload; the `Bool` result is
`false` in that case. -/
def directPages (tsroot pid : String) (insErr : Nat → Option String) :
    List String → List String → Nat → List Effect × Bool
  | [], _, _ => ([], true)
  | _p :: ps, thumbs, i =>
    let pk := pagePrevKey tsroot (i + 1) "jpg"
    match thumbs with
    | [] => ([Effect.putBlob pk true], false)
    | _t :: trest =>
      let tk := pageThumbKey tsroot (i + 1) "jpg"
      let row : PreviewRow := ⟨pid, i + 1, pk, tk⟩
      let insEff :=
        match insErr i with
        | some _ => []
        | none => [Effect.insertPreviews [row]]
      let (effs, ok) := directPages tsroot pid insErr ps trest (i + 1)
      (Effect.putBlob pk true :: Effect.putBlob tk true :: insEff ++ effs, ok)

/-- The `ppt_files` row the direct pipeline inserts: DB-generated id `pid`, original
key (timestamp-rooted) attached at insert, no slug and no thumbnail key. -/
def directRow (inp : DirectInput) (f : FileInfo) (ps : List String) (pid : String) :
    FileRow :=
  { id := pid
    title := inp.title.getD ""
    slug := none
    page_count := ps.length
    r2_file_key := some (origKeyOf (toString inp.timestamp) f.name)
    r2_thumbnail_key := none
    file_name := f.name
    file_size := f.size
    file_type := extOf f.name }

/-- The direct upload handler (route.ts `POST`): validate file/title/extension, upload
the original under a key rooted at `Date.now()`, validate the `previews`/`thumbnails`
form fields, insert the `ppt_files` row (on failure: compensating `PutObjectCommand`
*without a `Body`* on the original key, then throw → 500), then the per-page loop, then
the success response. -/
def directPOST (inp : DirectInput) : DirectOutput :=
  match inp.file with
  | none => ⟨400, .invalid "No file provided", []⟩
  | some f =>
    if falsyS inp.title then ⟨400, .invalid "Title is required", []⟩
    else
      let ft := extOf f.name
      if ¬(ft = "ppt" ∨ ft = "pptx") then
        ⟨400, .invalid "Only PPT/PPTX files are allowed", []⟩
      else
        let tsroot := toString inp.timestamp
        let pptKey := origKeyOf tsroot f.name
        let eff0 := [Effect.putBlob pptKey true]
        match inp.previewsField, inp.thumbnailsField with
        | none, _ => ⟨400, .invalid "Missing previews or thumbnails data", eff0⟩
        | some _, none => ⟨400, .invalid "Missing previews or thumbnails data", eff0⟩
        | some pj, some tj =>
          match pj, tj with
          | .malformed, _ => ⟨500, .failure "Failed to upload file", eff0⟩
          | _, .malformed => ⟨500, .failure "Failed to upload file", eff0⟩
          | .arr ps, .arr ts =>
            match inp.insertFile with
            | .error e =>
              ⟨500, .failure ("Database error: " ++ e),
                eff0 ++ [Effect.putBlob pptKey false]⟩
            | .ok pid =>
              let row := directRow inp f ps pid
              let (peffs, okLoop) :=
                directPages tsroot pid inp.insertPreviewErr ps ts 0
              if okLoop then
                ⟨200, .success pid, eff0 ++ [Effect.insertFile row] ++ peffs⟩
              else
                ⟨500, .failure "Failed to upload file",
                  eff0 ++ [Effect.insertFile row] ++ peffs⟩
          | _, _ => ⟨400, .invalid "Invalid previews or thumbnails data", eff0⟩

/-! ## AI-assisted pipeline (part_002 second route, `POST (process-ppt)`) -/

/-- Metadata returned by the classifier (`getAiMetadata`), as the handler consumes it. -/
structure AiMeta where
  title : String
  slug : String
  description : String
  category : String
  subcategory : String
  tags : Option (List String)
deriving DecidableEq, Repr

/-- Response body of the process-ppt handler. -/
inductive AiBody where
  | noFile
  | tooLarge
  | skipped (reason : String) (fileName : String)
  | success (pptId : String) (origKey thumbKey : String) (previewKeys : List String)
  | failure (details : String)
deriving DecidableEq, Repr

/-- Observable result of one process-ppt request. -/
structure AiOutput where
  status : Nat
  body : AiBody
  effects : List Effect
deriving DecidableEq, Repr

/-- Input of one process-ppt request, with oracles: `convert`/`extract` for the two
Python subprocesses, `jparse` for `JSON.parse` of the convert output, `ai` for
`getAiMetadata`, `insertFile` for the `ppt_files` insert (returning the DB id),
`insertPreviewsErr` for the `ppt_previews` batch insert.  The final `ppt_files` update
does not check its result in the source and is modelled as succeeding. -/
structure AiInput where
  file : Option FileInfo
  tempDirName : String
  timestamp : Nat
  convert : ConvOutcome
  jparse : String → Option PreviewData
  extract : ConvOutcome
  ai : Except String AiMeta
  insertFile : Except String String
  insertPreviewsErr : Option String

/-- Failure exit of the process-ppt handler's inner try: the catch clause returns a 500
with the error details, and the `finally` clause removes the workspace. -/
def aiFail (d : String) (effs : List Effect) (msg : String) : AiOutput :=
  ⟨500, .failure msg, effs ++ [Effect.rmWorkspace d]⟩

/-- The skip reason string of step 3. -/
def skipReason (pc : Nat) : String :=
  "File skipped: Page count (" ++ toString pc ++ ") is less than 10."

/-- Step 9's per-page loop: convert each preview to webp and upload it under
`page-<n>.webp`, then read `previewData.thumbnails[i]` — which throws when the
thumbnails field is missing or shorter than the previews list (`Bool` result `false`,
aborting after that page's preview upload) — convert and upload it under
`page-<n>-thumb.webp`, and accumulate the `ppt_previews` row. -/
def aiPages (pid : String) (tOpt : Option (List String)) :
    List String → Nat → List Effect × List PreviewRow × Bool
  | [], _ => ([], [], true)
  | _p :: ps, i =>
    let pk := pagePrevKey pid (i + 1) "webp"
    match (tOpt.getD []).get? i with
    | none => ([Effect.putBlob pk true], [], false)
    | some _t =>
      let tk := pageThumbKey pid (i + 1) "webp"
      let row : PreviewRow := ⟨pid, i + 1, pk, tk⟩
      let (effs, rows, ok) := aiPages pid tOpt ps (i + 1)
      (Effect.putBlob pk true :: Effect.putBlob tk true :: effs, row :: rows, ok)

/-- The initial `ppt_files` row the process-ppt pipeline inserts (step 6): page count
already set, storage keys not yet attached. -/
def aiRow (inp : AiInput) (f : FileInfo) (pc : Nat) (meta : AiMeta) (pid : String) :
    FileRow :=
  { id := pid
    title := meta.title
    slug := some (meta.slug ++ "-" ++ toString inp.timestamp)
    page_count := pc
    r2_file_key := none
    r2_thumbnail_key := none
    file_name := f.name
    file_size := f.size
    file_type := extSlice f.name }

/-- Steps 6-11 of the process-ppt handler, after classification produced `meta` and the
`ppt_files` insert returned id `pid`: upload the original, create and upload the
representative thumbnail, run the per-page loop, batch-insert the preview rows, update
the file row with the two storage keys, clean up and report success.  `pc` is the
page count persisted at insert time; `effs0` the effects so far. -/
def aiPersist (inp : AiInput) (f : FileInfo) (pd : PreviewData) (ps : List String)
    (pc : Nat) (meta : AiMeta) (pid : String) (effs0 : List Effect) : AiOutput :=
  let row := aiRow inp f pc meta pid
  let okey := origKeyOf pid f.name
  let tkey := repThumbKey pid
  let effs1 := effs0 ++ [Effect.insertFile row, Effect.putBlob okey true,
    Effect.putBlob tkey true]
  match aiPages pid pd.thumbnails ps 0 with
  | (peffs, rows, true) =>
    match inp.insertPreviewsErr with
    | some e => aiFail inp.tempDirName (effs1 ++ peffs) e
    | none =>
      ⟨200, .success pid okey tkey (rows.map PreviewRow.preview_url),
        effs1 ++ peffs ++
          [Effect.insertPreviews rows,
           Effect.updateFile pid (some okey) (some tkey),
           Effect.rmWorkspace inp.tempDirName, Effect.rmWorkspace inp.tempDirName]⟩
  | (peffs, _, false) =>
    aiFail inp.tempDirName (effs1 ++ peffs)
      "TypeError: cannot read thumbnail path"

/-- Steps 4-6 of the process-ppt handler: extract text, classify, insert the initial
`ppt_files` row (page count already set, storage keys not yet). -/
def aiConverted (inp : AiInput) (f : FileInfo) (pd : PreviewData) (ps : List String)
    (pc : Nat) (effs0 : List Effect) : AiOutput :=
  match runPythonScript "extract_text.py" inp.extract with
  | .error e => aiFail inp.tempDirName effs0 e
  | .ok _text =>
    match inp.ai with
    | .error e => aiFail inp.tempDirName effs0 e
    | .ok meta =>
      match inp.insertFile with
      | .error e => aiFail inp.tempDirName effs0 e
      | .ok pid => aiPersist inp f pd ps pc meta pid effs0

/-- Steps 2-3 of the process-ppt handler after the convert output parsed: derive the
page count (`previewData.page_count || 0`); when it is below 10, remove the workspace
and return the HTTP 200 skip response with the reason and filename, performing no
database write (the `finally` clause then removes the already-removed workspace again,
tolerated by `force: true`); otherwise require a non-empty previews list and proceed. -/
def aiParsed (inp : AiInput) (f : FileInfo) (pd : PreviewData)
    (effs0 : List Effect) : AiOutput :=
  let pc := pd.page_count.getD 0
  if pc < 10 then
    ⟨200, .skipped (skipReason pc) f.name,
      effs0 ++ [Effect.rmWorkspace inp.tempDirName, Effect.rmWorkspace inp.tempDirName]⟩
  else
    match pd.previews with
    | none => aiFail inp.tempDirName effs0 "convert.py did not return any preview paths."
    | some ps =>
      if ps.isEmpty then
        aiFail inp.tempDirName effs0 "convert.py did not return any preview paths."
      else aiConverted inp f pd ps pc effs0

/-- Steps 1-2 of the process-ppt handler after the workspace was created: save the
file, run `convert.py` and parse its whole trimmed stdout
(`JSON.parse(convertOutputJson.trim())`) — note: the *entire* stdout, not its last
line, so a parse-oracle failure on the full output is a thrown `SyntaxError`. -/
def aiStaged (inp : AiInput) (f : FileInfo) : AiOutput :=
  let effs0 := [Effect.mkWorkspace inp.tempDirName]
  match runPythonScript "convert.py" inp.convert with
  | .error e => aiFail inp.tempDirName effs0 e
  | .ok out =>
    match inp.jparse (jsTrim out) with
    | none => aiFail inp.tempDirName effs0 "SyntaxError: Unexpected token in JSON"
    | some pd => aiParsed inp f pd effs0

/-- The process-ppt handler (part_002 second route `POST`): reject a missing file with
400 and an over-limit file with 413, both before any side effect; then create the
workspace and run the staged pipeline. -/
def processPpt (inp : AiInput) : AiOutput :=
  match inp.file with
  | none => ⟨400, .noFile, []⟩
  | some f =>
    if f.size > maxSize then ⟨413, .tooLarge, []⟩
    else aiStaged inp f

/-! ## Trace predicates used in claim statements -/

/-- Effect is a `ppt_files` insert. -/
def isInsertFileE : Effect → Bool
  | .insertFile _ => true
  | _ => false

/-- Effect is a blob put under `ppt-files/<root>/previews/` (a per-page asset upload). -/
def isPreviewPutE (root : String) : Effect → Bool
  | .putBlob k _ => strStarts (keyRoot root ++ "previews/") k
  | _ => false

/-- Effect is a `ppt_files` update. -/
def isUpdateE : Effect → Bool
  | .updateFile _ _ _ => true
  | _ => false

/-- No blob put in the trace targets key `k`. -/
def noPutAt (k : String) (effs : List Effect) : Bool :=
  effs.all fun e =>
    match e with
    | .putBlob k' _ => k' ≠ k
    | _ => true

/-! ## Concrete runs used by counterexamples and witnesses -/

/-- One-page conversion result for concrete streamed runs. -/
def pdOnePage : PreviewData := ⟨none, some ["/o/p1.jpg"], some ["/o/t1.jpg"]⟩

/-- A `JSON.parse` oracle recognising exactly the given line (mirroring that
`JSON.parse` succeeds on that string and throws on the others appearing in the run). -/
def jpOnly (line : String) (pd : PreviewData) : String → Option PreviewData :=
  fun s => if s = line then some pd else none

/-- Fully valid streamed upload whose conversion succeeds with one page. -/
def exStreamOk : StreamInput :=
  { file := some ⟨"deck.pptx", 10⟩, title := some "T", description := none
    category := some "C", subcategory := none, tags := none
    tempDirName := "tmp1", uuid := "u1", timestamp := 5
    convert := .closed 0 "J" "", jparse := jpOnly "J" pdOnePage
    insertFileErr := none, insertPreviewsErr := none }

/-- Streamed upload whose converter exits with code 1. -/
def exStreamConvFail : StreamInput :=
  { exStreamOk with convert := .closed 1 "" "boom" }

/-- Valid direct upload: one preview/thumbnail pair, timestamp 111, DB returns id 5. -/
def exDirectOk : DirectInput :=
  { file := some ⟨"deck.pptx", 100⟩, title := some "T", category := some "C"
    subcategory := none, previewsField := some (.arr ["pv1"])
    thumbnailsField := some (.arr ["th1"]), timestamp := 111
    insertFile := .ok "5", insertPreviewErr := fun _ => none }

/-- Direct upload of a 150 MiB file, otherwise fully valid. -/
def exDirectBig : DirectInput :=
  { exDirectOk with file := some ⟨"big.pptx", 150 * 1024 * 1024⟩ }

/-- Direct upload where every per-page `ppt_previews` insert fails. -/
def exDirectPrevFail : DirectInput :=
  { exDirectOk with insertPreviewErr := fun _ => some "unique violation" }

/-- Valid process-ppt request: converter reports `page_count` 12 alongside a
two-element preview sequence; classification and inserts succeed (DB id 7). -/
def exAiOk : AiInput :=
  { file := some ⟨"deck.pptx", 100⟩, tempDirName := "d1", timestamp := 7
    convert := .closed 0 "J" ""
    jparse := jpOnly "J" ⟨some 12, some ["p1", "p2"], some ["t1", "t2"]⟩
    extract := .closed 0 "text" "", ai := .ok ⟨"T", "t-slug", "d", "c", "s", none⟩
    insertFile := .ok "7", insertPreviewsErr := none }

/-- process-ppt request for a `.key` file whose conversion (realistically) fails. -/
def exAiKeyFile : AiInput :=
  { exAiOk with file := some ⟨"deck.key", 100⟩, convert := .closed 1 "" "bad format" }

/-- process-ppt request whose converter reports 3 pages (below the 10-page gate). -/
def exAiSkip : AiInput :=
  { exAiOk with jparse := jpOnly "J" ⟨some 3, some ["p1"], some ["t1"]⟩ }

/-- Converter stdout consisting of a log line followed by the JSON result line. -/
def logThenJson : String := "INFO converting\nRESULT"

/-- process-ppt request whose convert stdout carries a log line before the JSON line;
the `JSON.parse` oracle accepts exactly the final line (as real `JSON.parse` would,
since the full two-line string is not valid JSON). -/
def exAiLogLine : AiInput :=
  { exAiOk with
    convert := .closed 0 logThenJson "",
    jparse := jpOnly "RESULT" ⟨some 12, some ["p1", "p2"], some ["t1", "t2"]⟩ }

/-! ## Claims settled on concrete runs -/

/-- C1 counterexample: in the streamed pipeline — a pipeline that persists metadata —
the successful run `exStreamOk` uploads a per-page preview asset (trace position 2)
*before* inserting the `PresentationFile` row (trace position 4), and the trace contains
no completing update: the row is inserted once with its storage keys already attached.
This refutes the claim that every metadata-persisting pipeline inserts the row before
per-page asset uploads and completes it by a later update. -/
theorem C1_counterexample :
    (streamedPOST exStreamOk).effects.findIdx? (isPreviewPutE "u1") = some 2 ∧
    (streamedPOST exStreamOk).effects.findIdx? isInsertFileE = some 4 ∧
    ((streamedPOST exStreamOk).effects.all fun e => !isUpdateE e) = true := by
  decide

/-- C2: on the failing streamed run `exStreamConvFail` (converter exit code 1) the
transport is closed by the callback's cleanup before the outer handler emits the
terminal event: no `done` or `error` event is ever delivered, and the `error` event's
enqueue is attempted only after close (where it throws). -/
theorem C2_no_terminal_event_on_failure :
    (streamedPOST exStreamConvFail).closed = true ∧
    (∀ e ∈ (streamedPOST exStreamConvFail).delivered,
      e.status ≠ "done" ∧ e.status ≠ "error") ∧
    (streamedPOST exStreamConvFail).failedEmit =
      some (evError (exitFailMsg 1 "boom")) := by
  decide

/-- C3 counterexample: a `.key` upload on the process-ppt pipeline is not rejected with
HTTP 400 — no extension check exists there — and a workspace *is* created; and a
150 MiB upload on the direct pipeline is not rejected at all (no size check exists
there): it completes with HTTP 200 after performing side effects. -/
theorem C3_counterexample :
    ((processPpt exAiKeyFile).status = 500 ∧
      Effect.mkWorkspace "d1" ∈ (processPpt exAiKeyFile).effects) ∧
    ((directPOST exDirectBig).status = 200 ∧ (directPOST exDirectBig).effects ≠ []) := by
  decide

/-- C5 counterexample: on stdout `"INFO converting\nRESULT"` (a log line before the
JSON line) with exit code 0, the streamed pipeline's adapter parses the last non-empty
line and succeeds, but the process-ppt pipeline parses the *entire* trimmed stdout, so
the same conversion fails there with a parse error — refuting the claim for "every
conversion". -/
theorem C5_counterexample :
    runPythonConverter (jpOnly "RESULT" pdOnePage) (.closed 0 logThenJson "") =
      .ok pdOnePage ∧
    (processPpt exAiLogLine).status = 500 ∧
    (processPpt exAiLogLine).body = .failure "SyntaxError: Unexpected token in JSON" := by
  decide

/-- C6 counterexample: in the direct pipeline the per-page `ppt_previews` insert error
is never checked — with every preview insert failing, no preview row is persisted, yet
the handler reports HTTP 200 success. -/
theorem C6_counterexample :
    (directPOST exDirectPrevFail).status = 200 ∧
    (directPOST exDirectPrevFail).body = .success "5" ∧
    previewRowsAfter (directPOST exDirectPrevFail).effects = [] := by
  decide

/-- C7 counterexample: in the direct pipeline run `exDirectOk` the persisted file row's
id is "5" (DB-generated), yet the original is stored under
`ppt-files/111/original/deck.pptx` — rooted at the request timestamp 111, not at the
file's id: no blob put targets the id-rooted key at all. -/
theorem C7_counterexample :
    (fileRowsAfter (directPOST exDirectOk).effects).map FileRow.id = ["5"] ∧
    Effect.putBlob (origKeyOf "111" "deck.pptx") true ∈ (directPOST exDirectOk).effects ∧
    strStarts (keyRoot "5") (origKeyOf "111" "deck.pptx") = false ∧
    noPutAt (origKeyOf "5" "deck.pptx") (directPOST exDirectOk).effects = true := by
  decide

/-- C8 counterexample: in the process-ppt run `exAiOk` the converter reports
`page_count` 12 with a two-element preview sequence; the pipeline succeeds, persists
`page_count = 12` on the file row, but writes only 2 preview rows — the derived and
persisted page count does not equal the length of the preview sequence. -/
theorem C8_counterexample :
    (processPpt exAiOk).status = 200 ∧
    (fileRowsAfter (processPpt exAiOk).effects).map FileRow.page_count = [12] ∧
    (previewRowsAfter (processPpt exAiOk).effects).length = 2 := by
  decide

theorem strData_append (a b : String) : (a ++ b).data = a.data ++ b.data := by
  cases a
  cases b
  rfl

theorem splitChOn_ne_nil (sep : Char) (cs : List Char) : splitChOn sep cs ≠ [] := by
  cases cs with
  | nil => simp [splitChOn]
  | cons c rest =>
    simp only [splitChOn]
    split
    · simp
    · split <;> simp

theorem splitChOn_append_sep (sep : Char) (a b : List Char) :
    splitChOn sep (a ++ sep :: b) = splitChOn sep a ++ splitChOn sep b := by
  induction a with
  | nil => simp [splitChOn]
  | cons c cs ih =>
    by_cases hc : c = sep
    · subst hc
      simp [splitChOn, ih]
    · obtain ⟨h, t, hcs⟩ := List.exists_cons_of_ne_nil (splitChOn_ne_nil sep cs)
      simp [splitChOn, hc, ih, hcs]

theorem splitChOn_of_not_mem (sep : Char) (cs : List Char) (h : sep ∉ cs) :
    splitChOn sep cs = [cs] := by
  induction cs with
  | nil => rfl
  | cons c rest ih =>
    have hc : ¬(c = sep) := fun hh => h (hh ▸ List.mem_cons_self c rest)
    have hrest : sep ∉ rest := fun hm => h (List.mem_cons_of_mem c hm)
    simp [splitChOn, ih hrest, hc]

theorem dropWhile_reverse_noop (l : List Char) (c : Char) (hl : l.getLast? = some c)
    (hc : jsWs c = false) : l.reverse.dropWhile jsWs = l.reverse := by
  rcases hr : l.reverse with _ | ⟨x, xs⟩
  · rfl
  · have hx : x = c := by
      have hh : l.reverse.head? = some c := by
        rw [List.head?_reverse]
        exact hl
      rw [hr] at hh
      exact Option.some.inj hh
    subst hx
    rw [List.dropWhile_cons, hc]
    simp

theorem trimChars_getLast_notws (cs : List Char) (c : Char) (hl : cs.getLast? = some c)
    (hc : jsWs c = false) : trimChars cs = cs.dropWhile jsWs := by
  unfold trimChars
  rcases hD : cs.dropWhile jsWs with _ | ⟨d, ds⟩
  · simp
  · obtain ⟨t, ht⟩ := List.dropWhile_suffix (l := cs) (p := jsWs)
    have hldd : (d :: ds).getLast? = some c := by
      have h2 : cs.getLast? = (d :: ds).getLast? := by
        conv_lhs => rw [← ht]
        rw [hD]
        exact List.getLast?_append_of_ne_nil t (by simp)
      rw [← h2]
      exact hl
    rw [dropWhile_reverse_noop (d :: ds) c hldd hc, List.reverse_reverse]

theorem dropWhile_append_shape (L J : List Char) (c₀ : Char) (hJ : J.head? = some c₀)
    (hc : jsWs c₀ = false) :
    (L ++ '\n' :: J).dropWhile jsWs = J ∨
    ∃ L', L' ≠ [] ∧ (L ++ '\n' :: J).dropWhile jsWs = L' ++ '\n' :: J := by
  induction L with
  | nil =>
    left
    rcases J with _ | ⟨x, xs⟩
    · simp at hJ
    · have hx : x = c₀ := Option.some.inj (by simpa using hJ)
      subst hx
      have h1 : jsWs '\n' = true := rfl
      simp [List.dropWhile_cons, h1, hc]
  | cons y ys ih =>
    by_cases hy : jsWs y = true
    · rw [List.cons_append, List.dropWhile_cons, hy]
      simpa using ih
    · right
      refine ⟨y :: ys, by simp, ?_⟩
      rw [List.cons_append, List.dropWhile_cons, Bool.of_not_eq_true hy]
      simp

theorem lastStdoutLine_log_robust (L J : List Char) (c₀ cLast : Char)
    (hnl : '\n' ∉ J) (hh : J.head? = some c₀) (hcw : jsWs c₀ = false)
    (hl : J.getLast? = some cLast) (hlw : jsWs cLast = false) :
    lastStdoutLine ⟨L ++ '\n' :: J⟩ = ⟨J⟩ := by
  have hJne : J ≠ [] := by
    intro h
    rw [h] at hh
    simp at hh
  have hlast : (L ++ '\n' :: J).getLast? = some cLast := by
    rw [List.getLast?_append_of_ne_nil L (by simp)]
    have : ('\n' :: J).getLast? = J.getLast? := by
      have := List.getLast?_append_of_ne_nil ['\n'] hJne
      simpa using this
    rw [this]
    exact hl
  unfold lastStdoutLine
  have hdata : (String.mk (L ++ '\n' :: J)).data = L ++ '\n' :: J := rfl
  rw [hdata, trimChars_getLast_notws _ cLast hlast hlw]
  rcases dropWhile_append_shape L J c₀ hh hcw with h | ⟨L', _, h⟩
  · rw [h, splitChOn_of_not_mem _ _ hnl]
    rfl
  · rw [h, splitChOn_append_sep, splitChOn_of_not_mem _ _ hnl]
    rw [List.getLastD_eq_getLast?, List.getLast?_append_of_ne_nil _ (by simp)]
    rfl

theorem C5_amended :
    (∀ (jp : String → Option PreviewData) (out err : String) (r : PreviewData),
        jp (lastStdoutLine out) = some r →
        runPythonConverter jp (.closed 0 out err) = .ok r) ∧
    (∀ (jp : String → Option PreviewData) (L J : List Char) (err : String)
        (r : PreviewData) (c₀ cLast : Char),
        '\n' ∉ J → J.head? = some c₀ → jsWs c₀ = false →
        J.getLast? = some cLast → jsWs cLast = false →
        jp (String.mk J) = some r →
        runPythonConverter jp (.closed 0 (String.mk (L ++ '\n' :: J)) err) = .ok r) ∧
    (∀ (jp : String → Option PreviewData) (out err : String),
        jp (lastStdoutLine out) = none →
        runPythonConverter jp (.closed 0 out err) = .error (parseFailMsg out err) ∧
        out.data <:+: (parseFailMsg out err).data ∧
        err.data <:+: (parseFailMsg out err).data) ∧
    (∀ (jp : String → Option PreviewData) (code : Int) (out err : String),
        code ≠ 0 →
        runPythonConverter jp (.closed code out err) = .error (exitFailMsg code err) ∧
        err.data <:+: (exitFailMsg code err).data) := by
  refine ⟨?_, ?_, ?_, ?_⟩
  · intro jp out err r h
    simp [runPythonConverter, h]
  · intro jp L J err r c₀ cLast hnl hh hcw hl hlw hjp
    have hline := lastStdoutLine_log_robust L J c₀ cLast hnl hh hcw hl hlw
    simp [runPythonConverter, hline, hjp]
  · intro jp out err h
    refine ⟨by simp [runPythonConverter, h], ?_, ?_⟩
    · refine ⟨("Failed to parse Python script output. Raw stdout: " : String).data,
        (". Stderr: " : String).data ++ err.data, ?_⟩
      simp [parseFailMsg, strData_append, List.append_assoc]
    · refine ⟨(("Failed to parse Python script output. Raw stdout: " ++ out ++
        ". Stderr: " : String)).data, [], ?_⟩
      simp [parseFailMsg, strData_append, List.append_assoc]
  · intro jp code out err h
    refine ⟨by simp [runPythonConverter, h], ?_⟩
    refine ⟨("Python script exited with code " ++ toString code ++
      ". Error: " : String).data, [], ?_⟩
    simp [exitFailMsg, strData_append, List.append_assoc]

theorem C5_amended_witness :
    runPythonConverter (jpOnly "RESULT" pdOnePage) (.closed 0 "RESULT" "") =
      .ok pdOnePage ∧
    runPythonConverter (jpOnly "RESULT" pdOnePage)
      (.closed 0 (String.mk ("INFO converting".data ++ '\n' :: "RESULT".data)) "") =
      .ok pdOnePage ∧
    runPythonConverter (jpOnly "X" pdOnePage) (.closed 0 "nope" "e") =
      .error (parseFailMsg "nope" "e") ∧
    runPythonConverter (jpOnly "X" pdOnePage) (.closed 2 "out" "err") =
      .error (exitFailMsg 2 "err") := by
  refine ⟨C5_amended.1 _ _ _ _ (by decide),
    C5_amended.2.1 _ "INFO converting".data "RESULT".data "" pdOnePage 'R' 'T'
      (by decide) (by decide) (by decide) (by decide) (by decide) (by decide),
    (C5_amended.2.2.1 _ "nope" "e" (by decide)).1,
    (C5_amended.2.2.2 _ 2 "out" "err" (by decide)).1⟩

/-! ## Trace-shape helper lemmas -/

/-- Effects that neither create nor remove a workspace. -/
def wsNeutral : Effect → Bool
  | .mkWorkspace _ => false
  | .rmWorkspace _ => false
  | _ => true

theorem dirsFold_neutral (acc : List String) (l : List Effect)
    (h : ∀ e ∈ l, wsNeutral e = true) : l.foldl dirsStep acc = acc := by
  induction l generalizing acc with
  | nil => rfl
  | cons e rest ih =>
    have he := h e (List.mem_cons_self e rest)
    have hstep : dirsStep acc e = acc := by
      cases e <;> simp [wsNeutral] at he ⊢ <;> rfl
    rw [List.foldl_cons, hstep]
    exact ih acc fun x hx => h x (List.mem_cons_of_mem e hx)

theorem dirsAfter_mk_mid_rm (d : String) (mid : List Effect)
    (h : ∀ e ∈ mid, wsNeutral e = true) :
    dirsAfter ((Effect.mkWorkspace d :: mid) ++ [Effect.rmWorkspace d]) = [] := by
  unfold dirsAfter
  rw [List.cons_append, List.foldl_cons]
  have h1 : dirsStep [] (Effect.mkWorkspace d) = [d] := rfl
  rw [h1, List.foldl_append, dirsFold_neutral [d] mid h]
  simp [dirsStep]

theorem dirsAfter_mk_mid_rm_rm (d : String) (mid : List Effect)
    (h : ∀ e ∈ mid, wsNeutral e = true) :
    dirsAfter ((Effect.mkWorkspace d :: mid) ++
      [Effect.rmWorkspace d, Effect.rmWorkspace d]) = [] := by
  unfold dirsAfter
  rw [List.cons_append, List.foldl_cons]
  have h1 : dirsStep [] (Effect.mkWorkspace d) = [d] := rfl
  rw [h1, List.foldl_append, dirsFold_neutral [d] mid h]
  simp [dirsStep]

theorem strStarts_of_data (p s : String) (t : List Char) (h : s.data = p.data ++ t) :
    strStarts p s = true := by
  unfold strStarts
  rw [h, List.isPrefixOf_iff_prefix]
  exact List.prefix_append _ _

theorem strStarts_origKey (root name : String) :
    strStarts (keyRoot root) (origKeyOf root name) = true :=
  strStarts_of_data _ _ (("original/" : String).data ++ name.data)
    (by simp [origKeyOf, strData_append, List.append_assoc])

theorem strStarts_pagePrevKey (root : String) (n : Nat) (ext : String) :
    strStarts (keyRoot root) (pagePrevKey root n ext) = true :=
  strStarts_of_data _ _
    (("previews/page-" : String).data ++ (toString n).data ++
      ("." : String).data ++ ext.data)
    (by simp [pagePrevKey, strData_append, List.append_assoc])

theorem strStarts_pageThumbKey (root : String) (n : Nat) (ext : String) :
    strStarts (keyRoot root) (pageThumbKey root n ext) = true :=
  strStarts_of_data _ _
    (("previews/page-" : String).data ++ (toString n).data ++
      ("-thumb." : String).data ++ ext.data)
    (by simp [pageThumbKey, strData_append, List.append_assoc])

theorem strStarts_repThumbKey (root : String) :
    strStarts (keyRoot root) (repThumbKey root) = true :=
  strStarts_of_data _ _ ("previews/thumbnail.webp" : String).data
    (by simp [repThumbKey, strData_append, List.append_assoc])

theorem strStarts_streamAssetKey (root base : String) :
    strStarts (keyRoot root) (streamAssetKey root base) = true :=
  strStarts_of_data _ _ (("previews/" : String).data ++ base.data)
    (by simp [streamAssetKey, strData_append, List.append_assoc])

/-! ## Loop lemmas for the three per-page fan-outs -/

theorem streamPages_spec (root : String) (pairs : List (String × String)) (i : Nat) :
    (∀ e ∈ (streamPages root pairs i).2.1,
        ∃ k, e = Effect.putBlob k true ∧ strStarts (keyRoot root) k = true) ∧
    (∀ ev ∈ (streamPages root pairs i).1, ev.status = "info") ∧
    (streamPages root pairs i).2.2.length = pairs.length := by
  induction pairs generalizing i with
  | nil => simp [streamPages]
  | cons pr rest ih =>
    obtain ⟨p, t⟩ := pr
    have ihs := ih (i + 1)
    refine ⟨?_, ?_, ?_⟩
    · intro e he
      simp only [streamPages, List.mem_cons] at he
      rcases he with h | h | h
      · exact ⟨_, h, strStarts_streamAssetKey root (basenameOf p)⟩
      · exact ⟨_, h, strStarts_streamAssetKey root (basenameOf t)⟩
      · exact ihs.1 e h
    · intro ev hev
      simp only [streamPages, List.mem_cons] at hev
      rcases hev with h | h
      · rw [h]; rfl
      · exact ihs.2.1 ev h
    · simp only [streamPages]
      simpa using ihs.2.2

theorem aiPages_spec (pid : String) (tOpt : Option (List String)) (ps : List String)
    (i : Nat) :
    (∀ e ∈ (aiPages pid tOpt ps i).1,
        ∃ k, e = Effect.putBlob k true ∧ strStarts (keyRoot pid) k = true ∧
          ∃ n, i + 1 ≤ n ∧
            (k = pagePrevKey pid n "webp" ∨ k = pageThumbKey pid n "webp")) ∧
    ((aiPages pid tOpt ps i).2.2 = true →
        (aiPages pid tOpt ps i).2.1.length = ps.length) := by
  induction ps generalizing i with
  | nil => simp [aiPages]
  | cons p rest ih =>
    have ihs := ih (i + 1)
    rcases hth : (tOpt.getD []).get? i with _ | th
    · constructor
      · intro e he
        simp only [aiPages, hth, List.mem_singleton] at he
        exact ⟨_, he, strStarts_pagePrevKey pid (i + 1) "webp",
          i + 1, le_refl _, Or.inl rfl⟩
      · intro hok
        simp only [aiPages, hth] at hok
        exact absurd hok (by decide)
    · constructor
      · intro e he
        simp only [aiPages, hth, List.mem_cons] at he
        rcases he with h | h | h
        · exact ⟨_, h, strStarts_pagePrevKey pid (i + 1) "webp",
            i + 1, le_refl _, Or.inl rfl⟩
        · exact ⟨_, h, strStarts_pageThumbKey pid (i + 1) "webp",
            i + 1, le_refl _, Or.inr rfl⟩
        · obtain ⟨k, hk, hpre, n, hn, hpat⟩ := ihs.1 e h
          exact ⟨k, hk, hpre, n, by omega, hpat⟩
      · intro hok
        simp only [aiPages, hth] at hok ⊢
        simpa using ihs.2 hok

theorem directPages_spec (tsroot pid : String) (insErr : Nat → Option String)
    (ps ts : List String) (i : Nat) :
    ∀ e ∈ (directPages tsroot pid insErr ps ts i).1,
      (∃ k b, e = Effect.putBlob k b ∧ strStarts (keyRoot tsroot) k = true) ∨
      (∃ rs, e = Effect.insertPreviews rs) := by
  induction ps generalizing ts i with
  | nil => simp [directPages]
  | cons p rest ih =>
    rcases ts with _ | ⟨t, trest⟩
    · intro e he
      simp only [directPages, List.mem_singleton] at he
      exact Or.inl ⟨_, _, he, strStarts_pagePrevKey tsroot (i + 1) "jpg"⟩
    · rcases hins : insErr i with _ | msg
      · intro e he
        simp only [directPages, hins, List.cons_append, List.nil_append,
          List.mem_cons, List.mem_append, List.mem_singleton] at he
        rcases he with h | h | h | h
        · exact Or.inl ⟨_, _, h, strStarts_pagePrevKey tsroot (i + 1) "jpg"⟩
        · exact Or.inl ⟨_, _, h, strStarts_pageThumbKey tsroot (i + 1) "jpg"⟩
        · exact Or.inr ⟨_, h⟩
        · exact ih trest (i + 1) e h
      · intro e he
        simp only [directPages, hins, List.cons_append, List.nil_append,
          List.mem_cons] at he
        rcases he with h | h | h
        · exact Or.inl ⟨_, _, h, strStarts_pagePrevKey tsroot (i + 1) "jpg"⟩
        · exact Or.inl ⟨_, _, h, strStarts_pageThumbKey tsroot (i + 1) "jpg"⟩
        · exact ih trest (i + 1) e h

/-! ## Master specification of the streamed pipeline body -/

/-- A progress (non-terminal) event. -/
def nonTerminalEv (ev : Event) : Prop :=
  ev.status = "info" ∨ ev.status = "processing"

theorem nonTerminal_evInfo (m : String) : nonTerminalEv (evInfo m) := Or.inl rfl

theorem nonTerminal_evProcessing (m : String) : nonTerminalEv (evProcessing m) :=
  Or.inr rfl

/-- Benign trace entry: workspace-neutral, not an update, and any blob put rooted at
`root`. -/
def tailOk (root : String) (e : Effect) : Prop :=
  wsNeutral e = true ∧ isUpdateE e = false ∧
  ∀ k b, e = Effect.putBlob k b → strStarts (keyRoot root) k = true

/-- Everything the claims need to know about one streamed-body outcome. -/
def StreamedSpec (inp : StreamInput) (r : BodyResult) : Prop :=
  (∀ e ∈ r.effects, isUpdateE e = false) ∧
  (∀ row, Effect.insertFile row ∈ r.effects →
      ∃ pd ps ts f,
        runPythonConverter inp.jparse inp.convert = Except.ok pd ∧
        pd.previews = some ps ∧ pd.thumbnails = some ts ∧
        ps.length = ts.length ∧
        row.page_count = ps.length ∧
        inp.file = some f ∧ row.r2_file_key = some (origKeyOf inp.uuid f.name)) ∧
  (∀ evs effs msg, r = .err evs effs msg → ∀ ev ∈ evs, nonTerminalEv ev) ∧
  (∀ evs effs, r = .ok evs effs →
      inp.insertFileErr = none ∧ inp.insertPreviewsErr = none ∧
      ∃ pre m sl, evs = pre ++ [evDone m sl] ∧ ∀ ev ∈ pre, nonTerminalEv ev) ∧
  (r.effects = [] ∨
    ∃ mid, r.effects = Effect.mkWorkspace inp.tempDirName :: mid ∧
      ∀ e ∈ mid, wsNeutral e = true) ∧
  (∀ k b, Effect.putBlob k b ∈ r.effects → strStarts (keyRoot inp.uuid) k = true)

/-- Packaged argument: a body outcome whose effect list is the workspace creation
followed by a benign tail, with the event/outcome facts supplied, satisfies the spec. -/
theorem streamedSpec_of_shape (inp : StreamInput) (r : BodyResult)
    (tail : List Effect)
    (hsh : r.effects = Effect.mkWorkspace inp.tempDirName :: tail)
    (htail : ∀ e ∈ tail, tailOk inp.uuid e)
    (hins : ∀ row, Effect.insertFile row ∈ tail →
      ∃ pd ps ts f,
        runPythonConverter inp.jparse inp.convert = Except.ok pd ∧
        pd.previews = some ps ∧ pd.thumbnails = some ts ∧
        ps.length = ts.length ∧
        row.page_count = ps.length ∧
        inp.file = some f ∧ row.r2_file_key = some (origKeyOf inp.uuid f.name))
    (herr : ∀ evs effs msg, r = .err evs effs msg → ∀ ev ∈ evs, nonTerminalEv ev)
    (hok : ∀ evs effs, r = .ok evs effs →
      inp.insertFileErr = none ∧ inp.insertPreviewsErr = none ∧
      ∃ pre m sl, evs = pre ++ [evDone m sl] ∧ ∀ ev ∈ pre, nonTerminalEv ev) :
    StreamedSpec inp r := by
  refine ⟨?_, ?_, herr, hok, ?_, ?_⟩
  · intro e he
    rw [hsh] at he
    rcases List.mem_cons.1 he with h | h
    · rw [h]; rfl
    · exact (htail e h).2.1
  · intro row hrow
    rw [hsh] at hrow
    rcases List.mem_cons.1 hrow with h | h
    · exact absurd h (by simp)
    · exact hins row h
  · exact Or.inr ⟨tail, hsh, fun e he => (htail e he).1⟩
  · intro k b hk
    rw [hsh] at hk
    rcases List.mem_cons.1 hk with h | h
    · exact absurd h (by simp)
    · exact (htail _ h).2.2 k b rfl

theorem sConverted_spec (inp : StreamInput) (f : FileInfo) (pd : PreviewData)
    (ps ts : List String) (evs0 : List Event)
    (hf : inp.file = some f)
    (hconv : runPythonConverter inp.jparse inp.convert = Except.ok pd)
    (hps : pd.previews = some ps) (hts : pd.thumbnails = some ts)
    (hlen : ps.length = ts.length)
    (hevs0 : ∀ ev ∈ evs0, nonTerminalEv ev) :
    StreamedSpec inp
      (sConverted inp f ps ts evs0 [Effect.mkWorkspace inp.tempDirName]) := by
  rcases hsp : streamPages inp.uuid (ps.zip ts) 0 with ⟨pevs, peffs, rows⟩
  have SP := streamPages_spec inp.uuid (ps.zip ts) 0
  rw [hsp] at SP
  obtain ⟨SPeff, SPev, SPlen⟩ := SP
  have hrowlen : rows.length = ps.length := by
    rw [SPlen, List.length_zip, hlen, Nat.min_self]
  have hpeffsOk : ∀ e ∈ peffs, tailOk inp.uuid e := by
    intro e he
    obtain ⟨k, hk, hroot⟩ := SPeff e he
    subst hk
    exact ⟨rfl, rfl, fun k' b' h' => by cases h'; exact hroot⟩
  have hpeffsNoIns : ∀ row, Effect.insertFile row ∈ peffs → False := by
    intro row h
    obtain ⟨k, hk, -⟩ := SPeff _ h
    exact absurd hk (by simp)
  have hputOk : tailOk inp.uuid (Effect.putBlob (origKeyOf inp.uuid f.name) true) :=
    ⟨rfl, rfl, fun k' b' h' => by cases h'; exact strStarts_origKey inp.uuid f.name⟩
  have hevs1 : ∀ ev ∈ evs0 ++
      [evInfo ("文件转换成功！共生成 " ++ toString ps.length ++ " 页预览。"),
       evProcessing "正在上传原始PPT文件到云存储...",
       evInfo "原始PPT文件上传完成。",
       evProcessing "正在上传预览图和缩略图..."] ++ pevs ++
      [evInfo "所有图片上传完成。",
       evProcessing "正在将文件信息写入数据库..."], nonTerminalEv ev := by
    intro ev hev
    simp only [List.mem_append, List.mem_cons, List.not_mem_nil, or_false] at hev
    rcases hev with ((h | h) | h) | h
    · exact hevs0 ev h
    · rcases h with h | h | h | h <;>
        first
          | exact h ▸ nonTerminal_evInfo _
          | exact h ▸ nonTerminal_evProcessing _
    · exact Or.inl (SPev ev h)
    · rcases h with h | h <;>
        first
          | exact h ▸ nonTerminal_evInfo _
          | exact h ▸ nonTerminal_evProcessing _
  have hrowFacts : ∀ row, Effect.insertFile row ∈
      [Effect.insertFile (streamRow inp f rows)] ∨ row = streamRow inp f rows →
      ∃ pd' ps' ts' f',
        runPythonConverter inp.jparse inp.convert = Except.ok pd' ∧
        pd'.previews = some ps' ∧ pd'.thumbnails = some ts' ∧
        ps'.length = ts'.length ∧
        row.page_count = ps'.length ∧
        inp.file = some f' ∧ row.r2_file_key = some (origKeyOf inp.uuid f'.name) := by
    intro row h
    have hreq : row = streamRow inp f rows := by
      rcases h with h | h
      · have h' := List.mem_singleton.1 h
        injection h'
      · exact h
    refine ⟨pd, ps, ts, f, hconv, hps, hts, hlen, ?_, hf, ?_⟩
    · rw [hreq]
      exact hrowlen
    · rw [hreq]
      rfl
  simp only [sConverted, hsp]
  cases hife : inp.insertFileErr with
  | some e1 =>
    refine streamedSpec_of_shape inp _
      (Effect.putBlob (origKeyOf inp.uuid f.name) true :: peffs)
      (by simp [BodyResult.effects]) ?_ ?_ ?_ ?_
    · intro e he
      rcases List.mem_cons.1 he with h | h
      · rw [h]; exact hputOk
      · exact hpeffsOk e h
    · intro row hrow
      rcases List.mem_cons.1 hrow with h | h
      · exact absurd h (by simp)
      · exact absurd h (fun hh => hpeffsNoIns row hh)
    · intro evs effs msg hr
      cases hr
      exact hevs1
    · intro evs effs hr
      cases hr
  | none =>
    cases hipe : inp.insertPreviewsErr with
    | some e2 =>
      refine streamedSpec_of_shape inp _
        (Effect.putBlob (origKeyOf inp.uuid f.name) true ::
          (peffs ++ [Effect.insertFile (streamRow inp f rows)]))
        (by simp [BodyResult.effects]) ?_ ?_ ?_ ?_
      · intro e he
        rcases List.mem_cons.1 he with h | h
        · rw [h]; exact hputOk
        · rcases List.mem_append.1 h with h' | h'
          · exact hpeffsOk e h'
          · rw [List.mem_singleton.1 h']
            exact ⟨rfl, rfl, fun k' b' h'' => absurd h'' (by simp)⟩
      · intro row hrow
        rcases List.mem_cons.1 hrow with h | h
        · exact absurd h (by simp)
        · rcases List.mem_append.1 h with h' | h'
          · exact absurd h' (fun hh => hpeffsNoIns row hh)
          · exact hrowFacts row (Or.inl h')
      · intro evs effs msg hr
        cases hr
        exact hevs1
      · intro evs effs hr
        cases hr
    | none =>
      refine streamedSpec_of_shape inp _
        (Effect.putBlob (origKeyOf inp.uuid f.name) true ::
          (peffs ++ [Effect.insertFile (streamRow inp f rows),
            Effect.insertPreviews rows]))
        (by simp [BodyResult.effects]) ?_ ?_ ?_ ?_
      · intro e he
        rcases List.mem_cons.1 he with h | h
        · rw [h]; exact hputOk
        · rcases List.mem_append.1 h with h' | h'
          · exact hpeffsOk e h'
          · rcases List.mem_cons.1 h' with h'' | h''
            · rw [h'']
              exact ⟨rfl, rfl, fun k' b' hx => absurd hx (by simp)⟩
            · rw [List.mem_singleton.1 h'']
              exact ⟨rfl, rfl, fun k' b' hx => absurd hx (by simp)⟩
      · intro row hrow
        rcases List.mem_cons.1 hrow with h | h
        · exact absurd h (by simp)
        · rcases List.mem_append.1 h with h' | h'
          · exact absurd h' (fun hh => hpeffsNoIns row hh)
          · rcases List.mem_cons.1 h' with h'' | h''
            · refine hrowFacts row (Or.inr ?_)
              injection h''
            · exact absurd (List.mem_singleton.1 h'') (by simp)
      · intro evs effs msg hr
        cases hr
      · intro evs effs hr
        cases hr
        refine ⟨hife, hipe, evs0 ++
          [evInfo ("文件转换成功！共生成 " ++ toString ps.length ++ " 页预览。"),
           evProcessing "正在上传原始PPT文件到云存储...",
           evInfo "原始PPT文件上传完成。",
           evProcessing "正在上传预览图和缩略图..."] ++ pevs ++
          [evInfo "所有图片上传完成。",
           evProcessing "正在将文件信息写入数据库...",
           evInfo "数据库写入成功！"], "所有任务已成功完成！", streamSlug inp, ?_, ?_⟩
        · simp
        · intro ev hev
          simp only [List.mem_append, List.mem_cons, List.not_mem_nil, or_false] at hev
          rcases hev with ((h | h) | h) | h
          · exact hevs0 ev h
          · rcases h with h | h | h | h <;>
              first
                | exact h ▸ nonTerminal_evInfo _
                | exact h ▸ nonTerminal_evProcessing _
          · exact Or.inl (SPev ev h)
          · rcases h with h | h | h <;>
              first
                | exact h ▸ nonTerminal_evInfo _
                | exact h ▸ nonTerminal_evProcessing _

/-- Spec for the validation-failure outcomes (no events, no effects yet). -/
theorem streamedSpec_err_nil (inp : StreamInput) (msg : String) :
    StreamedSpec inp (.err [] [] msg) := by
  refine ⟨?_, ?_, ?_, ?_, ?_, ?_⟩
  · intro e he
    exact absurd he (by simp [BodyResult.effects])
  · intro row hrow
    exact absurd hrow (by simp [BodyResult.effects])
  · intro evs effs m hr
    cases hr
    intro ev hev
    exact absurd hev (by simp)
  · intro evs effs hr
    cases hr
  · exact Or.inl rfl
  · intro k b hk
    exact absurd hk (by simp [BodyResult.effects])

/-- Spec for the staged-but-failed outcomes (workspace created, converter/validation
of the conversion result failed). -/
theorem sStaged_err_spec (inp : StreamInput) (msg : String) :
    StreamedSpec inp (.err
      [evInfo "数据校验完成，开始处理文件...",
       evInfo ("创建临时目录: " ++ basenameOf inp.tempDirName),
       evInfo "PPT文件已保存到服务器。",
       evProcessing "正在调用Python脚本转换文件... (此步骤可能需要较长时间)"]
      [Effect.mkWorkspace inp.tempDirName] msg) := by
  refine streamedSpec_of_shape inp _ [] rfl ?_ ?_ ?_ ?_
  · intro e he
    exact absurd he (by simp)
  · intro row hrow
    exact absurd hrow (by simp)
  · intro evs effs m hr
    cases hr
    intro ev hev
    simp only [List.mem_cons, List.not_mem_nil, or_false] at hev
    rcases hev with h | h | h | h <;>
      first
        | exact h ▸ nonTerminal_evInfo _
        | exact h ▸ nonTerminal_evProcessing _
  · intro evs effs hr
    cases hr

theorem sStaged_spec (inp : StreamInput) (f : FileInfo) (hf : inp.file = some f) :
    StreamedSpec inp (sStaged inp f) := by
  unfold sStaged
  cases hconv : runPythonConverter inp.jparse inp.convert with
  | error e => exact sStaged_err_spec inp e
  | ok pd =>
    cases hps : pd.previews with
    | none =>
      cases hts : pd.thumbnails with
      | none =>
        simp only [hps, hts]
        exact sStaged_err_spec inp _
      | some ts =>
        simp only [hps, hts]
        exact sStaged_err_spec inp _
    | some ps =>
      cases hts : pd.thumbnails with
      | none =>
        simp only [hps, hts]
        exact sStaged_err_spec inp _
      | some ts =>
        by_cases hlen : ps.length = ts.length
        · simp only [hps, hts, if_pos hlen]
          exact sConverted_spec inp f pd ps ts _ hf hconv hps hts hlen
            (by
              intro ev hev
              simp only [List.mem_cons, List.not_mem_nil, or_false] at hev
              rcases hev with h | h | h | h <;>
                first
                  | exact h ▸ nonTerminal_evInfo _
                  | exact h ▸ nonTerminal_evProcessing _)
        · simp only [hps, hts, if_neg hlen]
          exact sStaged_err_spec inp _

/-- Master lemma: every streamed-body outcome satisfies the spec. -/
theorem streamedBody_spec (inp : StreamInput) : StreamedSpec inp (streamedBody inp) := by
  unfold streamedBody
  cases hf : inp.file with
  | none => exact streamedSpec_err_nil inp _
  | some f =>
    by_cases hs : f.size > maxSize
    · simp only [if_pos hs]
      exact streamedSpec_err_nil inp _
    · simp only [if_neg hs]
      by_cases hv : (falsyS inp.title || falsyS inp.category) = true
      · simp only [hv, if_true]
        exact streamedSpec_err_nil inp _
      · simp only [hv, Bool.false_eq_true, if_false]
        exact sStaged_spec inp f hf

/-! ## Master lemmas for the process-ppt pipeline -/

theorem processPpt_success_shape (inp : AiInput) (idv o t : String)
    (pks : List String)
    (hb : (processPpt inp).body = AiBody.success idv o t pks) :
    ∃ f out pd ps meta peffs rows,
      inp.file = some f ∧
      runPythonScript "convert.py" inp.convert = Except.ok out ∧
      inp.jparse (jsTrim out) = some pd ∧
      pd.previews = some ps ∧
      inp.ai = Except.ok meta ∧
      inp.insertFile = Except.ok idv ∧
      inp.insertPreviewsErr = none ∧
      aiPages idv pd.thumbnails ps 0 = (peffs, rows, true) ∧
      o = origKeyOf idv f.name ∧
      t = repThumbKey idv ∧
      pks = rows.map PreviewRow.preview_url ∧
      (processPpt inp).status = 200 ∧
      (processPpt inp).effects =
        Effect.mkWorkspace inp.tempDirName ::
          Effect.insertFile (aiRow inp f (pd.page_count.getD 0) meta idv) ::
          Effect.putBlob o true :: Effect.putBlob t true :: peffs ++
          [Effect.insertPreviews rows, Effect.updateFile idv (some o) (some t),
           Effect.rmWorkspace inp.tempDirName, Effect.rmWorkspace inp.tempDirName] := by
  unfold processPpt at hb ⊢
  cases hf : inp.file with
  | none =>
    rw [hf] at hb
    simp at hb
  | some f =>
    rw [hf] at hb
    dsimp only at hb ⊢
    by_cases hs : f.size > maxSize
    · rw [if_pos hs] at hb
      simp at hb
    · rw [if_neg hs] at hb ⊢
      unfold aiStaged at hb ⊢
      cases hconv : runPythonScript "convert.py" inp.convert with
      | error e =>
        rw [hconv] at hb
        simp [aiFail] at hb
      | ok out =>
        rw [hconv] at hb
        dsimp only at hb ⊢
        cases hj : inp.jparse (jsTrim out) with
        | none =>
          rw [hj] at hb
          simp [aiFail] at hb
        | some pd =>
          rw [hj] at hb
          dsimp only at hb ⊢
          unfold aiParsed at hb ⊢
          by_cases hpc : pd.page_count.getD 0 < 10
          · rw [if_pos hpc] at hb
            simp at hb
          · rw [if_neg hpc] at hb ⊢
            cases hps : pd.previews with
            | none =>
              rw [hps] at hb
              simp [aiFail] at hb
            | some ps =>
              rw [hps] at hb
              dsimp only at hb ⊢
              by_cases hemp : ps.isEmpty
              · rw [if_pos hemp] at hb
                simp [aiFail] at hb
              · rw [if_neg hemp] at hb ⊢
                unfold aiConverted at hb ⊢
                cases hex : runPythonScript "extract_text.py" inp.extract with
                | error e =>
                  rw [hex] at hb
                  simp [aiFail] at hb
                | ok txt =>
                  rw [hex] at hb
                  dsimp only at hb ⊢
                  cases hai : inp.ai with
                  | error e =>
                    rw [hai] at hb
                    simp [aiFail] at hb
                  | ok meta =>
                    rw [hai] at hb
                    dsimp only at hb ⊢
                    cases hins : inp.insertFile with
                    | error e =>
                      rw [hins] at hb
                      simp [aiFail] at hb
                    | ok pid =>
                      rw [hins] at hb
                      dsimp only at hb ⊢
                      unfold aiPersist at hb ⊢
                      rcases hap : aiPages pid pd.thumbnails ps 0 with ⟨peffs, rows, okf⟩
                      rw [hap] at hb
                      cases okf with
                      | false => simp [aiFail] at hb
                      | true =>
                        dsimp only at hb ⊢
                        cases hpe : inp.insertPreviewsErr with
                        | some e =>
                          rw [hpe] at hb
                          simp [aiFail] at hb
                        | none =>
                          rw [hpe] at hb
                          dsimp only at hb ⊢
                          simp only [AiBody.success.injEq] at hb
                          obtain ⟨h1, h2, h3, h4⟩ := hb
                          subst h1
                          subst h2
                          subst h3
                          subst h4
                          exact ⟨f, out, pd, ps, meta, peffs, rows, rfl, rfl,
                            hj, hps, rfl, rfl, rfl, hap, rfl, rfl, rfl, rfl, rfl⟩

/-- Workspace discipline of the process-ppt handler: either no effect happened at all
(validation rejected the request), or the trace is the workspace creation, followed by
workspace-neutral effects, followed by one or two `fs.rm` calls on that workspace. -/
theorem processPpt_ws (inp : AiInput) :
    (processPpt inp).effects = [] ∨
    ∃ mid, ((processPpt inp).effects =
        (Effect.mkWorkspace inp.tempDirName :: mid) ++
          [Effect.rmWorkspace inp.tempDirName] ∨
      (processPpt inp).effects =
        (Effect.mkWorkspace inp.tempDirName :: mid) ++
          [Effect.rmWorkspace inp.tempDirName, Effect.rmWorkspace inp.tempDirName]) ∧
      ∀ e ∈ mid, wsNeutral e = true := by
  unfold processPpt
  cases hf : inp.file with
  | none => exact Or.inl rfl
  | some f =>
    dsimp only
    by_cases hs : f.size > maxSize
    · rw [if_pos hs]
      exact Or.inl rfl
    · rw [if_neg hs]
      unfold aiStaged
      cases hconv : runPythonScript "convert.py" inp.convert with
      | error e => exact Or.inr ⟨[], Or.inl rfl, by simp⟩
      | ok out =>
        dsimp only
        cases hj : inp.jparse (jsTrim out) with
        | none => exact Or.inr ⟨[], Or.inl rfl, by simp⟩
        | some pd =>
          dsimp only
          unfold aiParsed
          by_cases hpc : pd.page_count.getD 0 < 10
          · rw [if_pos hpc]
            exact Or.inr ⟨[], Or.inr rfl, by simp⟩
          · rw [if_neg hpc]
            cases hps : pd.previews with
            | none => exact Or.inr ⟨[], Or.inl rfl, by simp⟩
            | some ps =>
              dsimp only
              by_cases hemp : ps.isEmpty
              · rw [if_pos hemp]
                exact Or.inr ⟨[], Or.inl rfl, by simp⟩
              · rw [if_neg hemp]
                unfold aiConverted
                cases hex : runPythonScript "extract_text.py" inp.extract with
                | error e => exact Or.inr ⟨[], Or.inl rfl, by simp⟩
                | ok txt =>
                  dsimp only
                  cases hai : inp.ai with
                  | error e => exact Or.inr ⟨[], Or.inl rfl, by simp⟩
                  | ok meta =>
                    dsimp only
                    cases hins : inp.insertFile with
                    | error e => exact Or.inr ⟨[], Or.inl rfl, by simp⟩
                    | ok pid =>
                      dsimp only
                      unfold aiPersist
                      rcases hap : aiPages pid pd.thumbnails ps 0 with ⟨peffs, rows, okf⟩
                      have AP := (aiPages_spec pid pd.thumbnails ps 0).1
                      rw [hap] at AP
                      have hpeffsNeutral : ∀ e ∈ peffs, wsNeutral e = true := by
                        intro e he
                        obtain ⟨k, hk, -⟩ := AP e he
                        rw [hk]
                        rfl
                      cases okf with
                      | false =>
                        refine Or.inr ⟨Effect.insertFile
                            (aiRow inp f (pd.page_count.getD 0) meta pid) ::
                            Effect.putBlob (origKeyOf pid f.name) true ::
                            Effect.putBlob (repThumbKey pid) true :: peffs,
                          Or.inl rfl, ?_⟩
                        intro e he
                        simp only [List.mem_cons] at he
                        rcases he with h | h | h | h
                        · rw [h]; rfl
                        · rw [h]; rfl
                        · rw [h]; rfl
                        · exact hpeffsNeutral e h
                      | true =>
                        dsimp only
                        cases hpe : inp.insertPreviewsErr with
                        | some e2 =>
                          refine Or.inr ⟨Effect.insertFile
                            (aiRow inp f (pd.page_count.getD 0) meta pid) ::
                            Effect.putBlob (origKeyOf pid f.name) true ::
                            Effect.putBlob (repThumbKey pid) true :: peffs,
                            Or.inl rfl, ?_⟩
                          intro e he
                          simp only [List.mem_cons] at he
                          rcases he with h | h | h | h
                          · rw [h]; rfl
                          · rw [h]; rfl
                          · rw [h]; rfl
                          · exact hpeffsNeutral e h
                        | none =>
                          refine Or.inr
                            ⟨Effect.insertFile
                              (aiRow inp f (pd.page_count.getD 0) meta pid) ::
                              Effect.putBlob (origKeyOf pid f.name) true ::
                              Effect.putBlob (repThumbKey pid) true ::
                              (peffs ++
                                [Effect.insertPreviews rows,
                                 Effect.updateFile pid
                                   (some (origKeyOf pid f.name))
                                   (some (repThumbKey pid))]),
                              Or.inr (by simp), ?_⟩
                          intro e he
                          simp only [List.mem_cons, List.mem_append,
                            List.mem_singleton, List.not_mem_nil, or_false] at he
                          rcases he with h | h | h | h | h | h
                          · rw [h]; rfl
                          · rw [h]; rfl
                          · rw [h]; rfl
                          · exact hpeffsNeutral e h
                          · rw [h]; rfl
                          · rw [h]; rfl

/-! ## Master lemma for the direct pipeline -/

theorem directPOST_shape (inp : DirectInput) :
    (∀ k b, Effect.putBlob k b ∈ (directPOST inp).effects →
       strStarts (keyRoot (toString inp.timestamp)) k = true) ∧
    (∀ row, Effect.insertFile row ∈ (directPOST inp).effects →
       ∃ f ps pid, inp.file = some f ∧ inp.previewsField = some (FormJson.arr ps) ∧
         inp.insertFile = Except.ok pid ∧ row = directRow inp f ps pid) := by
  unfold directPOST
  cases hf : inp.file with
  | none => exact ⟨fun k b hk => absurd hk (by simp), fun row hr => absurd hr (by simp)⟩
  | some f =>
    try dsimp only
    by_cases ht : falsyS inp.title = true
    · rw [if_pos ht]
      exact ⟨fun k b hk => absurd hk (by simp), fun row hr => absurd hr (by simp)⟩
    · rw [if_neg ht]
      by_cases hext : ¬(extOf f.name = "ppt" ∨ extOf f.name = "pptx")
      · rw [if_pos hext]
        exact ⟨fun k b hk => absurd hk (by simp), fun row hr => absurd hr (by simp)⟩
      · rw [if_neg hext]
        have horig : ∀ (b : Bool) (k : String),
            Effect.putBlob k b = Effect.putBlob (origKeyOf (toString inp.timestamp)
              f.name) true ∨
            Effect.putBlob k b = Effect.putBlob (origKeyOf (toString inp.timestamp)
              f.name) false →
            strStarts (keyRoot (toString inp.timestamp)) k = true := by
          intro b k h
          rcases h with h | h <;>
            · injection h with h1 h2
              rw [h1]
              exact strStarts_origKey _ _
        cases hp : inp.previewsField with
        | none =>
          refine ⟨?_, fun row hr => absurd hr (by simp)⟩
          intro k b hk
          exact horig b k (Or.inl (List.mem_singleton.1 hk))
        | some pj =>
          try dsimp only
          cases hth : inp.thumbnailsField with
          | none =>
            refine ⟨?_, fun row hr => absurd hr (by simp)⟩
            intro k b hk
            exact horig b k (Or.inl (List.mem_singleton.1 hk))
          | some tj =>
            try dsimp only
            cases pj with
            | malformed =>
              cases tj <;>
                exact ⟨fun k b hk => horig b k (Or.inl (List.mem_singleton.1 hk)),
                  fun row hr => absurd hr (by simp)⟩
            | nonArray =>
              cases tj <;>
                exact ⟨fun k b hk => horig b k (Or.inl (List.mem_singleton.1 hk)),
                  fun row hr => absurd hr (by simp)⟩
            | arr ps =>
              cases tj with
              | malformed =>
                exact ⟨fun k b hk => horig b k (Or.inl (List.mem_singleton.1 hk)),
                  fun row hr => absurd hr (by simp)⟩
              | nonArray =>
                exact ⟨fun k b hk => horig b k (Or.inl (List.mem_singleton.1 hk)),
                  fun row hr => absurd hr (by simp)⟩
              | arr ts =>
                try dsimp only
                cases hins : inp.insertFile with
                | error e =>
                  refine ⟨?_, fun row hr => absurd hr (by simp)⟩
                  intro k b hk
                  simp only [List.cons_append, List.nil_append, List.mem_cons,
                    List.not_mem_nil, or_false] at hk
                  exact horig b k hk
                | ok pid =>
                  try dsimp only
                  rcases hloop : directPages (toString inp.timestamp) pid
                      inp.insertPreviewErr ps ts 0 with ⟨peffs, okLoop⟩
                  have DP := directPages_spec (toString inp.timestamp) pid
                    inp.insertPreviewErr ps ts 0
                  rw [hloop] at DP
                  have hmem : ∀ k b, Effect.putBlob k b ∈
                      [Effect.putBlob (origKeyOf (toString inp.timestamp) f.name) true]
                        ++ [Effect.insertFile (directRow inp f ps pid)] ++ peffs →
                      strStarts (keyRoot (toString inp.timestamp)) k = true := by
                    intro k b hk
                    simp only [List.cons_append, List.nil_append, List.mem_cons] at hk
                    rcases hk with h | h | h
                    · exact horig b k (Or.inl h)
                    · exact absurd h (by simp)
                    · rcases DP _ h with ⟨k', b', hkb, hroot⟩ | ⟨rs, hrs⟩
                      · injection hkb with h1 h2
                        rw [h1]
                        exact hroot
                      · exact absurd hrs (by simp)
                  have hmem2 : ∀ row, Effect.insertFile row ∈
                      [Effect.putBlob (origKeyOf (toString inp.timestamp) f.name) true]
                        ++ [Effect.insertFile (directRow inp f ps pid)] ++ peffs →
                      ∃ f' ps' pid', some f = some f' ∧
                        some (FormJson.arr ps) = some (FormJson.arr ps') ∧
                        Except.ok (ε := String) pid = Except.ok pid' ∧
                        row = directRow inp f' ps' pid' := by
                    intro row hr
                    simp only [List.cons_append, List.nil_append, List.mem_cons] at hr
                    rcases hr with h | h | h
                    · exact absurd h (by simp)
                    · injection h with h1
                      exact ⟨f, ps, pid, rfl, rfl, rfl, h1⟩
                    · rcases DP _ h with ⟨k', b', hkb, hroot⟩ | ⟨rs, hrs⟩
                      · exact absurd hkb (by simp)
                      · exact absurd hrs (by simp)
                  cases okLoop with
                  | true => exact ⟨hmem, hmem2⟩
                  | false => exact ⟨hmem, hmem2⟩

/-- Insert/update ordering of the direct pipeline: the trace never contains a
`ppt_files` update, and whenever the file row is inserted, the trace is exactly the
original-file put (whose key the row already carries in `r2_file_key`), then the
insert, then only per-page blob puts and preview-row inserts. -/
theorem directPOST_insert_order (inp : DirectInput) :
    (∀ (idv : String) (fk tk : Option String),
      Effect.updateFile idv fk tk ∉ (directPOST inp).effects) ∧
    (∀ row, Effect.insertFile row ∈ (directPOST inp).effects →
      ∃ f ps pid peffs,
        inp.file = some f ∧
        row = directRow inp f ps pid ∧
        (directPOST inp).effects =
          Effect.putBlob (origKeyOf (toString inp.timestamp) f.name) true ::
            Effect.insertFile row :: peffs ∧
        ∀ e ∈ peffs, (∃ k b, e = Effect.putBlob k b) ∨
          ∃ rs, e = Effect.insertPreviews rs) := by
  unfold directPOST
  cases hf : inp.file with
  | none =>
    exact ⟨fun idv fk tk h => absurd h (by simp), fun row hr => absurd hr (by simp)⟩
  | some f =>
    try dsimp only
    by_cases ht : falsyS inp.title = true
    · rw [if_pos ht]
      exact ⟨fun idv fk tk h => absurd h (by simp), fun row hr => absurd hr (by simp)⟩
    · rw [if_neg ht]
      by_cases hext : ¬(extOf f.name = "ppt" ∨ extOf f.name = "pptx")
      · rw [if_pos hext]
        exact ⟨fun idv fk tk h => absurd h (by simp),
          fun row hr => absurd hr (by simp)⟩
      · rw [if_neg hext]
        cases hp : inp.previewsField with
        | none =>
          exact ⟨fun idv fk tk h => absurd h (by simp),
            fun row hr => absurd hr (by simp)⟩
        | some pj =>
          try dsimp only
          cases hth : inp.thumbnailsField with
          | none =>
            exact ⟨fun idv fk tk h => absurd h (by simp),
              fun row hr => absurd hr (by simp)⟩
          | some tj =>
            try dsimp only
            cases pj with
            | malformed =>
              cases tj <;>
                exact ⟨fun idv fk tk h => absurd h (by simp),
                  fun row hr => absurd hr (by simp)⟩
            | nonArray =>
              cases tj <;>
                exact ⟨fun idv fk tk h => absurd h (by simp),
                  fun row hr => absurd hr (by simp)⟩
            | arr ps =>
              cases tj with
              | malformed =>
                exact ⟨fun idv fk tk h => absurd h (by simp),
                  fun row hr => absurd hr (by simp)⟩
              | nonArray =>
                exact ⟨fun idv fk tk h => absurd h (by simp),
                  fun row hr => absurd hr (by simp)⟩
              | arr ts =>
                try dsimp only
                cases hins : inp.insertFile with
                | error e =>
                  exact ⟨fun idv fk tk h => absurd h (by simp),
                    fun row hr => absurd hr (by simp)⟩
                | ok pid =>
                  try dsimp only
                  rcases hloop : directPages (toString inp.timestamp) pid
                      inp.insertPreviewErr ps ts 0 with ⟨peffs, okLoop⟩
                  have DP := directPages_spec (toString inp.timestamp) pid
                    inp.insertPreviewErr ps ts 0
                  rw [hloop] at DP
                  have hnoupd : ∀ (idv : String) (fk tk : Option String),
                      Effect.updateFile idv fk tk ∉
                        [Effect.putBlob (origKeyOf (toString inp.timestamp) f.name)
                          true] ++ [Effect.insertFile (directRow inp f ps pid)] ++
                          peffs := by
                    intro idv fk tk hupd
                    simp only [List.cons_append, List.nil_append,
                      List.mem_cons] at hupd
                    rcases hupd with h | h | h
                    · exact absurd h (by simp)
                    · exact absurd h (by simp)
                    · rcases DP _ h with ⟨k', b', hkb, -⟩ | ⟨rs, hrs⟩
                      · exact absurd hkb (by simp)
                      · exact absurd hrs (by simp)
                  have hdecomp : ∀ row, Effect.insertFile row ∈
                      [Effect.putBlob (origKeyOf (toString inp.timestamp) f.name)
                        true] ++ [Effect.insertFile (directRow inp f ps pid)] ++
                        peffs →
                      ∃ f' ps' pid' peffs',
                        some f = some f' ∧
                        row = directRow inp f' ps' pid' ∧
                        ([Effect.putBlob (origKeyOf (toString inp.timestamp) f.name)
                          true] ++ [Effect.insertFile (directRow inp f ps pid)] ++
                          peffs : List Effect) =
                          Effect.putBlob (origKeyOf (toString inp.timestamp)
                            f'.name) true :: Effect.insertFile row :: peffs' ∧
                        ∀ e ∈ peffs', (∃ k b, e = Effect.putBlob k b) ∨
                          ∃ rs, e = Effect.insertPreviews rs := by
                    intro row hr
                    simp only [List.cons_append, List.nil_append,
                      List.mem_cons] at hr
                    rcases hr with h | h | h
                    · exact absurd h (by simp)
                    · injection h with h1
                      subst h1
                      refine ⟨f, ps, pid, peffs, rfl, rfl, rfl, ?_⟩
                      intro e he
                      rcases DP e he with ⟨k, b, hkb, -⟩ | hh
                      · exact Or.inl ⟨k, b, hkb⟩
                      · exact Or.inr hh
                    · rcases DP _ h with ⟨k', b', hkb, -⟩ | ⟨rs, hrs⟩
                      · exact absurd hkb (by simp)
                      · exact absurd hrs (by simp)
                  cases okLoop with
                  | true => exact ⟨hnoupd, hdecomp⟩
                  | false => exact ⟨hnoupd, hdecomp⟩

/-! ## Consequences at the streamed-response level -/

theorem streamedPOST_cases (inp : StreamInput) :
    (∃ evs effs, streamedBody inp = .ok evs effs ∧
      streamedPOST inp = ⟨evs, true, none, effs ++
        if hasWorkspace effs then [Effect.rmWorkspace inp.tempDirName] else []⟩) ∨
    (∃ evs effs msg, streamedBody inp = .err evs effs msg ∧
      streamedPOST inp = ⟨evs, true, some (evError msg), effs ++
        if hasWorkspace effs then [Effect.rmWorkspace inp.tempDirName] else []⟩) := by
  unfold streamedPOST
  cases hb : streamedBody inp with
  | ok evs effs => exact Or.inl ⟨evs, effs, rfl, rfl⟩
  | err evs effs msg => exact Or.inr ⟨evs, effs, msg, rfl, rfl⟩

theorem streamedPOST_mem (inp : StreamInput) (e : Effect)
    (he : e ∈ (streamedPOST inp).effects) :
    e ∈ (streamedBody inp).effects ∨ e = Effect.rmWorkspace inp.tempDirName := by
  rcases streamedPOST_cases inp with ⟨evs, effs, hb, hp⟩ | ⟨evs, effs, msg, hb, hp⟩ <;>
  · rw [hp] at he
    rcases List.mem_append.1 he with h | h
    · left
      rw [hb]
      exact h
    · right
      by_cases hw : hasWorkspace effs = true
      · rw [if_pos hw] at h
        exact List.mem_singleton.1 h
      · rw [if_neg hw] at h
        exact absurd h (by simp)

/-- C9: both workspace-staging pipelines leave no workspace directory behind on any
exit path (success, skip, validation failure, or mid-pipeline failure), and the
`fs.rm(recursive, force)` cleanup the handlers use never raises and is idempotent:
removing an already-removed directory succeeds and changes nothing. -/
theorem C9_workspace_cleanup :
    (∀ inp : StreamInput, dirsAfter (streamedPOST inp).effects = []) ∧
    (∀ inp : AiInput, dirsAfter (processPpt inp).effects = []) ∧
    (∀ (dirs : List String) (d : String),
      fsRm dirs d true = Except.ok (dirs.filter (· ≠ d)) ∧
      fsRm (dirs.filter (· ≠ d)) d true = Except.ok (dirs.filter (· ≠ d))) := by
  refine ⟨?_, ?_, ?_⟩
  · intro inp
    have hws := (streamedBody_spec inp).2.2.2.2.1
    rcases streamedPOST_cases inp with ⟨evs, effs, hb, hp⟩ | ⟨evs, effs, msg, hb, hp⟩ <;>
    · rw [hb] at hws
      rw [hp]
      rcases hws with h | ⟨mid, hsh, hmid⟩
      · try dsimp only at h
        subst h
        rfl
      · try dsimp only at hsh
        subst hsh
        have hw : hasWorkspace (Effect.mkWorkspace inp.tempDirName :: mid) = true := by
          simp [hasWorkspace]
        rw [if_pos hw]
        exact dirsAfter_mk_mid_rm inp.tempDirName mid hmid
  · intro inp
    rcases processPpt_ws inp with h | ⟨mid, h, hmid⟩
    · rw [h]
      rfl
    · rcases h with h | h <;> rw [h]
      · exact dirsAfter_mk_mid_rm inp.tempDirName mid hmid
      · exact dirsAfter_mk_mid_rm_rm inp.tempDirName mid hmid
  · intro dirs d
    constructor
    · unfold fsRm
      by_cases hd : d ∈ dirs
      · rw [if_pos hd]
      · rw [if_neg hd]
        have : dirs.filter (· ≠ d) = dirs := by
          apply List.filter_eq_self.2
          intro x hx
          simp only [ne_eq, decide_not, Bool.not_eq_true', decide_eq_false_iff_not]
          intro hxd
          exact hd (hxd ▸ hx)
        rw [this, if_pos rfl]
    · unfold fsRm
      have hd : d ∉ dirs.filter (· ≠ d) := by
        intro hmem
        have := List.of_mem_filter hmem
        simp at this
      rw [if_neg hd, if_pos rfl]

/-- C4: in the process-ppt pipeline, whenever conversion succeeds and the derived page
count (`previewData.page_count || 0`) is below 10, the request terminates as skipped:
HTTP 200 with the skip reason and the filename, the workspace is removed (twice —
idempotently), and no `ppt_files` or `ppt_previews` row is ever written. -/
theorem C4_page_count_skip (inp : AiInput) (f : FileInfo) (out : String)
    (pd : PreviewData)
    (hf : inp.file = some f) (hs : f.size ≤ maxSize)
    (hconv : runPythonScript "convert.py" inp.convert = Except.ok out)
    (hparse : inp.jparse (jsTrim out) = some pd)
    (hpc : pd.page_count.getD 0 < 10) :
    processPpt inp = ⟨200, .skipped (skipReason (pd.page_count.getD 0)) f.name,
      [Effect.mkWorkspace inp.tempDirName, Effect.rmWorkspace inp.tempDirName,
       Effect.rmWorkspace inp.tempDirName]⟩ ∧
    fileRowsAfter (processPpt inp).effects = [] ∧
    previewRowsAfter (processPpt inp).effects = [] ∧
    dirsAfter (processPpt inp).effects = [] := by
  have h1 : processPpt inp = ⟨200,
      .skipped (skipReason (pd.page_count.getD 0)) f.name,
      [Effect.mkWorkspace inp.tempDirName, Effect.rmWorkspace inp.tempDirName,
       Effect.rmWorkspace inp.tempDirName]⟩ := by
    unfold processPpt aiStaged aiParsed
    rw [hf]
    dsimp only
    rw [if_neg (by omega : ¬f.size > maxSize), hconv]
    dsimp only
    rw [hparse]
    dsimp only
    rw [if_pos hpc]
    rfl
  refine ⟨h1, ?_, ?_, ?_⟩ <;> rw [h1]
  · rfl
  · rfl
  · exact dirsAfter_mk_mid_rm_rm inp.tempDirName [] (by simp)

/-- C4 witness: a concrete 3-page conversion is skipped with HTTP 200, reason and
filename, no database rows, no workspace left. -/
theorem C4_page_count_skip_witness :
    processPpt exAiSkip = ⟨200, .skipped (skipReason 3) "deck.pptx",
      [Effect.mkWorkspace "d1", Effect.rmWorkspace "d1", Effect.rmWorkspace "d1"]⟩ ∧
    fileRowsAfter (processPpt exAiSkip).effects = [] ∧
    previewRowsAfter (processPpt exAiSkip).effects = [] ∧
    dirsAfter (processPpt exAiSkip).effects = [] :=
  C4_page_count_skip exAiSkip ⟨"deck.pptx", 100⟩ "J" ⟨some 3, some ["p1"], some ["t1"]⟩
    (by decide) (by decide) (by decide) (by decide) (by decide)

/-- C10: in the direct pipeline, when the `ppt_files` insert fails after the original
blob was uploaded, the handler issues a compensating put of the same original key with
no body — overwriting the stored original with an empty object instead of deleting the
key — and then reports HTTP 500 with `success: false`; the key still exists in the blob
store (mapped to the body-less put) after the error response. -/
theorem C10_failed_insert_compensation (inp : DirectInput) (f : FileInfo)
    (ps ts : List String) (e : String)
    (hf : inp.file = some f) (ht : falsyS inp.title = false)
    (hext : extOf f.name = "ppt" ∨ extOf f.name = "pptx")
    (hp : inp.previewsField = some (.arr ps))
    (hth : inp.thumbnailsField = some (.arr ts))
    (hins : inp.insertFile = .error e) :
    directPOST inp = ⟨500, .failure ("Database error: " ++ e),
      [Effect.putBlob (origKeyOf (toString inp.timestamp) f.name) true,
       Effect.putBlob (origKeyOf (toString inp.timestamp) f.name) false]⟩ ∧
    blobAt (directPOST inp).effects (origKeyOf (toString inp.timestamp) f.name) =
      some false := by
  have h1 : directPOST inp = ⟨500, .failure ("Database error: " ++ e),
      [Effect.putBlob (origKeyOf (toString inp.timestamp) f.name) true,
       Effect.putBlob (origKeyOf (toString inp.timestamp) f.name) false]⟩ := by
    unfold directPOST
    rw [hf]
    dsimp only
    rw [if_neg (by simp [ht]), if_neg (not_not_intro hext), hp, hth]
    dsimp only
    rw [hins]
    rfl
  refine ⟨h1, ?_⟩
  rw [h1]
  simp [blobAt]

/-- C10 witness: concrete direct upload whose insert fails. -/
theorem C10_failed_insert_compensation_witness :
    directPOST { exDirectOk with insertFile := .error "conflict" } =
      ⟨500, .failure "Database error: conflict",
        [Effect.putBlob (origKeyOf "111" "deck.pptx") true,
         Effect.putBlob (origKeyOf "111" "deck.pptx") false]⟩ ∧
    blobAt (directPOST { exDirectOk with insertFile := .error "conflict" }).effects
      (origKeyOf "111" "deck.pptx") = some false :=
  C10_failed_insert_compensation { exDirectOk with insertFile := .error "conflict" }
    ⟨"deck.pptx", 100⟩ ["pv1"] ["th1"] "conflict"
    (by decide) (by decide) (by decide) (by decide) (by decide) (by decide)

/-- C1 (amended): only the process-ppt pipeline inserts the file row before asset
uploads and completes it by a later update. First conjunct: every successful
process-ppt run's trace is the workspace creation, then the `ppt_files` insert of a row
with *no* storage keys, then only blob puts and the preview batch insert, then the
update attaching the original and representative-thumbnail keys, then only workspace
removals. Second and third conjuncts: the streamed pipeline attaches the original-file
key already at insert time and never issues an update. Fourth and fifth conjuncts: the
direct pipeline inserts its row with the original key already attached and no
thumbnail key, after the original upload but before every per-page upload (everything
after the insert is a blob put or a preview-row insert), and never issues an update. -/
theorem C1_amended :
    (∀ (inp : AiInput) (idv o t : String) (pks : List String),
      (processPpt inp).body = AiBody.success idv o t pks →
      ∃ row mid tail,
        (processPpt inp).effects =
          Effect.mkWorkspace inp.tempDirName :: Effect.insertFile row ::
            (mid ++ Effect.updateFile idv (some o) (some t) :: tail) ∧
        row.r2_file_key = none ∧ row.r2_thumbnail_key = none ∧
        (∀ e ∈ mid, (∃ k b, e = Effect.putBlob k b) ∨
          ∃ rs, e = Effect.insertPreviews rs) ∧
        (∀ e ∈ tail, ∃ dd, e = Effect.rmWorkspace dd)) ∧
    (∀ (inp : StreamInput) (row : FileRow),
      Effect.insertFile row ∈ (streamedPOST inp).effects →
      row.r2_file_key ≠ none) ∧
    (∀ (inp : StreamInput) (idv : String) (fk tk : Option String),
      Effect.updateFile idv fk tk ∉ (streamedPOST inp).effects) ∧
    (∀ (inp : DirectInput) (row : FileRow),
      Effect.insertFile row ∈ (directPOST inp).effects →
      ∃ orig peffs,
        (directPOST inp).effects =
          Effect.putBlob orig true :: Effect.insertFile row :: peffs ∧
        row.r2_file_key = some orig ∧
        row.r2_thumbnail_key = none ∧
        (∀ e ∈ peffs, (∃ k b, e = Effect.putBlob k b) ∨
          ∃ rs, e = Effect.insertPreviews rs)) ∧
    (∀ (inp : DirectInput) (idv : String) (fk tk : Option String),
      Effect.updateFile idv fk tk ∉ (directPOST inp).effects) := by
  refine ⟨?_, ?_, ?_, ?_, ?_⟩
  · intro inp idv o t pks hb
    obtain ⟨f, out, pd, ps, meta, peffs, rows, hf, hconv, hj, hps, hai, hins, hpe,
      hap, ho, hto, hpks, hst, heff⟩ := processPpt_success_shape inp idv o t pks hb
    have AP := (aiPages_spec idv pd.thumbnails ps 0).1
    rw [hap] at AP
    refine ⟨aiRow inp f (pd.page_count.getD 0) meta idv,
      Effect.putBlob o true :: Effect.putBlob t true ::
        (peffs ++ [Effect.insertPreviews rows]), [Effect.rmWorkspace inp.tempDirName,
        Effect.rmWorkspace inp.tempDirName], ?_, rfl, rfl, ?_, ?_⟩
    · rw [heff]
      simp
    · intro e he
      rcases List.mem_cons.1 he with h | h
      · exact Or.inl ⟨_, _, h⟩
      rcases List.mem_cons.1 h with h' | h'
      · exact Or.inl ⟨_, _, h'⟩
      rcases List.mem_append.1 h' with h'' | h''
      · obtain ⟨k, hk, -⟩ := AP e h''
        exact Or.inl ⟨_, _, hk⟩
      · exact Or.inr ⟨rows, List.mem_singleton.1 h''⟩
    · intro e he
      rcases List.mem_cons.1 he with h | h
      · exact ⟨_, h⟩
      · exact ⟨_, List.mem_singleton.1 h⟩
  · intro inp row hrow
    rcases streamedPOST_mem inp _ hrow with h | h
    · obtain ⟨pd, ps, ts, f, -, -, -, -, -, -, hkey⟩ :=
        (streamedBody_spec inp).2.1 row h
      rw [hkey]
      simp
    · exact absurd h (by simp)
  · intro inp idv fk tk hupd
    rcases streamedPOST_mem inp _ hupd with h | h
    · have := (streamedBody_spec inp).1 _ h
      simp [isUpdateE] at this
    · exact absurd h (by simp)
  · intro inp row hrow
    obtain ⟨f, ps, pid, peffs, hf, hrowEq, heq, hpe⟩ :=
      (directPOST_insert_order inp).2 row hrow
    refine ⟨origKeyOf (toString inp.timestamp) f.name, peffs, heq, ?_, ?_, hpe⟩
    · rw [hrowEq]
      rfl
    · rw [hrowEq]
      rfl
  · intro inp idv fk tk
    exact (directPOST_insert_order inp).1 idv fk tk

/-- C1 witness: the concrete successful process-ppt run `exAiOk` decomposed as insert
first, then uploads, then the completing update; plus the direct pipeline's concrete
run `exDirectOk` with the row inserted (original key attached) before the per-page
uploads and no update in either trace. -/
theorem C1_amended_witness :
    (∃ row mid tail,
      (processPpt exAiOk).effects =
        Effect.mkWorkspace exAiOk.tempDirName :: Effect.insertFile row ::
          (mid ++ Effect.updateFile "7" (some (origKeyOf "7" "deck.pptx"))
            (some (repThumbKey "7")) :: tail) ∧
      row.r2_file_key = none ∧ row.r2_thumbnail_key = none ∧
      (∀ e ∈ mid, (∃ k b, e = Effect.putBlob k b) ∨
        ∃ rs, e = Effect.insertPreviews rs) ∧
      (∀ e ∈ tail, ∃ dd, e = Effect.rmWorkspace dd)) ∧
    (∃ orig peffs,
      (directPOST exDirectOk).effects =
        Effect.putBlob orig true ::
          Effect.insertFile (directRow exDirectOk ⟨"deck.pptx", 100⟩ ["pv1"] "5") ::
          peffs ∧
      (directRow exDirectOk ⟨"deck.pptx", 100⟩ ["pv1"] "5").r2_file_key = some orig ∧
      (directRow exDirectOk ⟨"deck.pptx", 100⟩ ["pv1"] "5").r2_thumbnail_key = none ∧
      (∀ e ∈ peffs, (∃ k b, e = Effect.putBlob k b) ∨
        ∃ rs, e = Effect.insertPreviews rs)) ∧
    (∀ (idv : String) (fk tk : Option String),
      Effect.updateFile idv fk tk ∉ (directPOST exDirectOk).effects) :=
  ⟨C1_amended.1 exAiOk "7" (origKeyOf "7" "deck.pptx") (repThumbKey "7")
      ["ppt-files/7/previews/page-1.webp", "ppt-files/7/previews/page-2.webp"]
      (by decide),
   C1_amended.2.2.2.1 exDirectOk
      (directRow exDirectOk ⟨"deck.pptx", 100⟩ ["pv1"] "5") (by decide),
   fun idv fk tk => C1_amended.2.2.2.2 exDirectOk idv fk tk⟩

/-- C3 (amended): each pipeline's own validation checks reject before any side effect —
direct: missing file, falsy title, extension outside \x7bppt, pptx\x7d (HTTP 400, empty
trace); process-ppt: missing file (400) and oversize (413), both with empty trace;
streamed: missing file, oversize, missing title/category, all before any effect.  The
extension check exists only in the direct pipeline and the size check only in the
streamed and AI pipelines. -/
theorem C3_amended :
    (∀ inp : DirectInput, inp.file = none →
      directPOST inp = ⟨400, .invalid "No file provided", []⟩) ∧
    (∀ (inp : DirectInput) (f : FileInfo), inp.file = some f →
      falsyS inp.title = true →
      directPOST inp = ⟨400, .invalid "Title is required", []⟩) ∧
    (∀ (inp : DirectInput) (f : FileInfo), inp.file = some f →
      falsyS inp.title = false →
      ¬(extOf f.name = "ppt" ∨ extOf f.name = "pptx") →
      directPOST inp = ⟨400, .invalid "Only PPT/PPTX files are allowed", []⟩) ∧
    (∀ inp : AiInput, inp.file = none → processPpt inp = ⟨400, .noFile, []⟩) ∧
    (∀ (inp : AiInput) (f : FileInfo), inp.file = some f → f.size > maxSize →
      processPpt inp = ⟨413, .tooLarge, []⟩) ∧
    (∀ inp : StreamInput, inp.file = none → (streamedPOST inp).effects = []) ∧
    (∀ (inp : StreamInput) (f : FileInfo), inp.file = some f → f.size > maxSize →
      (streamedPOST inp).effects = []) ∧
    (∀ (inp : StreamInput) (f : FileInfo), inp.file = some f → f.size ≤ maxSize →
      (falsyS inp.title || falsyS inp.category) = true →
      (streamedPOST inp).effects = []) := by
  refine ⟨?_, ?_, ?_, ?_, ?_, ?_, ?_, ?_⟩
  · intro inp h
    unfold directPOST
    rw [h]
  · intro inp f hf ht
    unfold directPOST
    rw [hf]
    dsimp only
    rw [if_pos ht]
  · intro inp f hf ht hext
    unfold directPOST
    rw [hf]
    dsimp only
    rw [if_neg (by simp [ht]), if_pos hext]
  · intro inp h
    unfold processPpt
    rw [h]
  · intro inp f hf hs
    unfold processPpt
    rw [hf]
    dsimp only
    rw [if_pos hs]
  · intro inp h
    unfold streamedPOST streamedBody
    rw [h]
    rfl
  · intro inp f hf hs
    unfold streamedPOST streamedBody
    rw [hf]
    dsimp only
    rw [if_pos hs]
    rfl
  · intro inp f hf hs hv
    unfold streamedPOST streamedBody
    rw [hf]
    dsimp only
    rw [if_neg (by omega : ¬f.size > maxSize), if_pos hv]
    rfl

/-- C3 witness: a `.key` upload on the direct pipeline is rejected with HTTP 400 and an
empty effect trace. -/
theorem C3_amended_witness :
    directPOST { exDirectOk with file := some ⟨"deck.key", 100⟩ } =
      ⟨400, .invalid "Only PPT/PPTX files are allowed", []⟩ :=
  C3_amended.2.2.1 { exDirectOk with file := some ⟨"deck.key", 100⟩ }
    ⟨"deck.key", 100⟩ (by decide) (by decide) (by decide)

/-- C6 (amended): the file-row insert failure is fatal in all three pipelines (the
direct pipeline returns 500 with the database error; the streamed pipeline never emits
`done`; the process-ppt pipeline never reports success), and the preview batch insert
failure is fatal in the streamed and process-ppt pipelines — but the direct pipeline's
per-page preview inserts are unchecked (see the counterexample). -/
theorem C6_amended :
    (∀ (inp : DirectInput) (f : FileInfo) (ps ts : List String) (e : String),
      inp.file = some f → falsyS inp.title = false →
      (extOf f.name = "ppt" ∨ extOf f.name = "pptx") →
      inp.previewsField = some (.arr ps) → inp.thumbnailsField = some (.arr ts) →
      inp.insertFile = .error e →
      (directPOST inp).status = 500 ∧
      (directPOST inp).body = .failure ("Database error: " ++ e)) ∧
    (∀ inp : StreamInput,
      (inp.insertFileErr ≠ none ∨ inp.insertPreviewsErr ≠ none) →
      ∀ ev ∈ (streamedPOST inp).delivered, ev.status ≠ "done") ∧
    (∀ (inp : AiInput) (e : String),
      (inp.insertFile = .error e ∨ inp.insertPreviewsErr = some e) →
      ∀ (idv o t : String) (pks : List String),
        (processPpt inp).body ≠ AiBody.success idv o t pks) := by
  refine ⟨?_, ?_, ?_⟩
  · intro inp f ps ts e hf ht hext hp hth hins
    have h1 : directPOST inp = ⟨500, .failure ("Database error: " ++ e),
        [Effect.putBlob (origKeyOf (toString inp.timestamp) f.name) true,
         Effect.putBlob (origKeyOf (toString inp.timestamp) f.name) false]⟩ := by
      unfold directPOST
      rw [hf]
      dsimp only
      rw [if_neg (by simp [ht]), if_neg (not_not_intro hext), hp, hth]
      dsimp only
      rw [hins]
      rfl
    rw [h1]
    exact ⟨rfl, rfl⟩
  · intro inp hbad ev hev
    rcases streamedPOST_cases inp with ⟨evs, effs, hb, hp⟩ | ⟨evs, effs, msg, hb, hp⟩
    · obtain ⟨hife, hipe, -⟩ := (streamedBody_spec inp).2.2.2.1 evs effs hb
      rcases hbad with hbad | hbad
      · exact absurd hife hbad
      · exact absurd hipe hbad
    · rw [hp] at hev
      have := (streamedBody_spec inp).2.2.1 evs effs msg hb ev hev
      intro hd
      rcases this with h | h <;> rw [hd] at h <;> exact absurd h (by decide)
  · intro inp e hbad idv o t pks hb
    obtain ⟨f, out, pd, ps, meta, peffs, rows, hf, hconv, hj, hps, hai, hins, hpe,
      -, -, -, -, -, -⟩ := processPpt_success_shape inp idv o t pks hb
    rcases hbad with hbad | hbad
    · rw [hbad] at hins
      exact absurd hins (by simp)
    · rw [hbad] at hpe
      exact absurd hpe (by simp)

/-- C6 witness: file-row insert failure in each pipeline. -/
theorem C6_amended_witness :
    ((directPOST { exDirectOk with insertFile := .error "dup" }).status = 500 ∧
      (directPOST { exDirectOk with insertFile := .error "dup" }).body =
        .failure "Database error: dup") ∧
    (∀ ev ∈ (streamedPOST { exStreamOk with insertFileErr := some "dup" }).delivered,
      ev.status ≠ "done") ∧
    (∀ (idv o t : String) (pks : List String),
      (processPpt { exAiOk with insertFile := .error "dup" }).body ≠
        AiBody.success idv o t pks) :=
  ⟨C6_amended.1 { exDirectOk with insertFile := .error "dup" } ⟨"deck.pptx", 100⟩
      ["pv1"] ["th1"] "dup" (by decide) (by decide) (by decide) (by decide)
      (by decide) (by decide),
   C6_amended.2.1 { exStreamOk with insertFileErr := some "dup" }
      (Or.inl (by decide)),
   fun idv o t pks =>
     C6_amended.2.2 { exAiOk with insertFile := .error "dup" } "dup"
       (Or.inl (by decide)) idv o t pks⟩

/-- C7 (amended): in the process-ppt pipeline every blob put of a successful run is the
id-rooted original, the id-rooted representative thumbnail (`previews/thumbnail.webp`),
or an id-rooted `page-<n>.webp` / `page-<n>-thumb.webp` with `n ≥ 1`; every streamed
pipeline put is rooted at the request's UUID (the row id); but every direct-pipeline
put is rooted at the request timestamp, not at the file row's DB-generated id. -/
theorem C7_amended :
    (∀ (inp : AiInput) (idv o t : String) (pks : List String),
      (processPpt inp).body = AiBody.success idv o t pks →
      ∃ f, inp.file = some f ∧
        ∀ k b, Effect.putBlob k b ∈ (processPpt inp).effects →
          k = origKeyOf idv f.name ∨ k = repThumbKey idv ∨
          ∃ n, 1 ≤ n ∧
            (k = pagePrevKey idv n "webp" ∨ k = pageThumbKey idv n "webp")) ∧
    (∀ (inp : DirectInput) (k : String) (b : Bool),
      Effect.putBlob k b ∈ (directPOST inp).effects →
      strStarts (keyRoot (toString inp.timestamp)) k = true) ∧
    (∀ (inp : StreamInput) (k : String) (b : Bool),
      Effect.putBlob k b ∈ (streamedPOST inp).effects →
      strStarts (keyRoot inp.uuid) k = true) := by
  refine ⟨?_, ?_, ?_⟩
  · intro inp idv o t pks hb
    obtain ⟨f, out, pd, ps, meta, peffs, rows, hf, hconv, hj, hps, hai, hins, hpe,
      hap, ho, hto, hpks, hst, heff⟩ := processPpt_success_shape inp idv o t pks hb
    have AP := (aiPages_spec idv pd.thumbnails ps 0).1
    rw [hap] at AP
    refine ⟨f, hf, ?_⟩
    intro k b hk
    rw [heff] at hk
    rcases List.mem_cons.1 hk with h | h
    · exact absurd h (by simp)
    rcases List.mem_cons.1 h with h | h
    · exact absurd h (by simp)
    rcases List.mem_cons.1 h with h | h
    · injection h with h1 h2
      exact Or.inl (h1.trans ho)
    rcases List.mem_cons.1 h with h | h
    · injection h with h1 h2
      exact Or.inr (Or.inl (h1.trans hto))
    rcases List.mem_append.1 h with h | h
    · obtain ⟨k', hkb, hroot, n, hn, hpat⟩ := AP _ h
      injection hkb with h1 h2
      rw [h1]
      exact Or.inr (Or.inr ⟨n, hn, hpat⟩)
    · rcases List.mem_cons.1 h with h' | h'
      · exact absurd h' (by simp)
      rcases List.mem_cons.1 h' with h'' | h''
      · exact absurd h'' (by simp)
      rcases List.mem_cons.1 h'' with h3 | h3
      · exact absurd h3 (by simp)
      · exact absurd (List.mem_singleton.1 h3) (by simp)
  · intro inp k b hk
    exact (directPOST_shape inp).1 k b hk
  · intro inp k b hk
    rcases streamedPOST_mem inp _ hk with h | h
    · exact (streamedBody_spec inp).2.2.2.2.2 k b h
    · exact absurd h (by simp)

/-- C7 witness: the concrete successful process-ppt run, a concrete direct-pipeline
key rooted at the timestamp, and a concrete streamed key rooted at the UUID. -/
theorem C7_amended_witness :
    (∃ f, exAiOk.file = some f ∧
      ∀ k b, Effect.putBlob k b ∈ (processPpt exAiOk).effects →
        k = origKeyOf "7" f.name ∨ k = repThumbKey "7" ∨
        ∃ n, 1 ≤ n ∧
          (k = pagePrevKey "7" n "webp" ∨ k = pageThumbKey "7" n "webp")) ∧
    strStarts (keyRoot "111") (origKeyOf "111" "deck.pptx") = true ∧
    strStarts (keyRoot "u1") (origKeyOf "u1" "deck.pptx") = true :=
  ⟨C7_amended.1 exAiOk "7" (origKeyOf "7" "deck.pptx") (repThumbKey "7")
      ["ppt-files/7/previews/page-1.webp", "ppt-files/7/previews/page-2.webp"]
      (by decide),
   C7_amended.2.1 exDirectOk (origKeyOf "111" "deck.pptx") true (by decide),
   C7_amended.2.2 exStreamOk (origKeyOf "u1" "deck.pptx") true (by decide)⟩

/-- C8 (amended): the streamed pipeline enforces `previews.length = thumbnails.length`
and persists `page_count` equal to that length; the direct pipeline persists
`page_count` equal to the client-supplied previews array length; but the process-ppt
pipeline persists the converter-reported `page_count` field, with the number of
persisted preview rows equal to the preview-sequence length — the two need not agree
(see the counterexample). -/
theorem C8_amended :
    (∀ (inp : StreamInput) (row : FileRow),
      Effect.insertFile row ∈ (streamedPOST inp).effects →
      ∃ pd ps ts, runPythonConverter inp.jparse inp.convert = Except.ok pd ∧
        pd.previews = some ps ∧ pd.thumbnails = some ts ∧
        ps.length = ts.length ∧ row.page_count = ps.length) ∧
    (∀ (inp : DirectInput) (row : FileRow),
      Effect.insertFile row ∈ (directPOST inp).effects →
      ∃ ps, inp.previewsField = some (FormJson.arr ps) ∧
        row.page_count = ps.length) ∧
    (∀ (inp : AiInput) (idv o t : String) (pks : List String),
      (processPpt inp).body = AiBody.success idv o t pks →
      ∃ out pd ps row rows,
        runPythonScript "convert.py" inp.convert = Except.ok out ∧
        inp.jparse (jsTrim out) = some pd ∧ pd.previews = some ps ∧
        Effect.insertFile row ∈ (processPpt inp).effects ∧
        Effect.insertPreviews rows ∈ (processPpt inp).effects ∧
        row.page_count = pd.page_count.getD 0 ∧ rows.length = ps.length) := by
  refine ⟨?_, ?_, ?_⟩
  · intro inp row hrow
    rcases streamedPOST_mem inp _ hrow with h | h
    · obtain ⟨pd, ps, ts, f, hconv, hps, hts, hlen, hpc, -, -⟩ :=
        (streamedBody_spec inp).2.1 row h
      exact ⟨pd, ps, ts, hconv, hps, hts, hlen, hpc⟩
    · exact absurd h (by simp)
  · intro inp row hrow
    obtain ⟨f, ps, pid, hf, hp, hins, hr⟩ := (directPOST_shape inp).2 row hrow
    refine ⟨ps, hp, ?_⟩
    rw [hr]
    rfl
  · intro inp idv o t pks hb
    obtain ⟨f, out, pd, ps, meta, peffs, rows, hf, hconv, hj, hps, hai, hins, hpe,
      hap, ho, hto, hpks, hst, heff⟩ := processPpt_success_shape inp idv o t pks hb
    have AP2 := (aiPages_spec idv pd.thumbnails ps 0).2
    rw [hap] at AP2
    refine ⟨out, pd, ps, aiRow inp f (pd.page_count.getD 0) meta idv, rows,
      hconv, hj, hps, ?_, ?_, rfl, AP2 rfl⟩
    · rw [heff]
      exact List.mem_cons_of_mem _ (List.mem_cons_self _ _)
    · rw [heff]
      simp

/-- C8 witness: concrete rows inserted by each pipeline. -/
theorem C8_amended_witness :
    (∃ pd ps ts, runPythonConverter exStreamOk.jparse exStreamOk.convert =
        Except.ok pd ∧
      pd.previews = some ps ∧ pd.thumbnails = some ts ∧ ps.length = ts.length ∧
      (streamRow exStreamOk ⟨"deck.pptx", 10⟩
        [⟨"u1", 1, "ppt-files/u1/previews/p1.jpg",
          "ppt-files/u1/previews/t1.jpg"⟩]).page_count = ps.length) ∧
    (∃ ps, exDirectOk.previewsField = some (FormJson.arr ps) ∧
      (directRow exDirectOk ⟨"deck.pptx", 100⟩ ["pv1"] "5").page_count = ps.length) ∧
    (∃ out pd ps row rows,
      runPythonScript "convert.py" exAiOk.convert = Except.ok out ∧
      exAiOk.jparse (jsTrim out) = some pd ∧ pd.previews = some ps ∧
      Effect.insertFile row ∈ (processPpt exAiOk).effects ∧
      Effect.insertPreviews rows ∈ (processPpt exAiOk).effects ∧
      row.page_count = pd.page_count.getD 0 ∧ rows.length = ps.length) :=
  ⟨C8_amended.1 exStreamOk
      (streamRow exStreamOk ⟨"deck.pptx", 10⟩
        [⟨"u1", 1, "ppt-files/u1/previews/p1.jpg",
          "ppt-files/u1/previews/t1.jpg"⟩]) (by decide),
   C8_amended.2.1 exDirectOk (directRow exDirectOk ⟨"deck.pptx", 100⟩ ["pv1"] "5")
      (by decide),
   C8_amended.2.2 exAiOk "7" (origKeyOf "7" "deck.pptx") (repThumbKey "7")
      ["ppt-files/7/previews/page-1.webp", "ppt-files/7/previews/page-2.webp"]
      (by decide)⟩
